import Mathlib

/-!
Shallow embedding of the cross-border contact-network subsystem of this
repository (population cross-layer synthesis in `CrossNetwork.py`, the daily
mobility state machine and layer-editing interventions in
`my_intervention.py`, and the custom population builder in `mytest.py`).

Agents are indexed by natural numbers; per-agent numpy arrays become
functions `Nat → α`; a contact layer becomes a list of edges carrying a
rational weight (`beta`); numpy `nan` sentinels in the return-day array
become `Option Nat`; Python exceptions become `Except`.  Randomness
(`np.random.choice`, `shuffle`, `randint`) is modelled by oracle parameters
constrained by hypotheses that state exactly the numpy contract of the call
(membership, length, no duplicates, range).
-/

namespace CovaCross

/-- One contact edge of a layer: endpoints `p1`, `p2` (agent indices) and a
per-edge transmission weight `beta` (numpy float arrays become `ℚ`). -/
structure Edge where
  p1 : Nat
  p2 : Nat
  beta : ℚ
  deriving Repr, DecidableEq

/-- Masked assignment `beta[mask] = v` on a layer's beta array
(numpy boolean-mask write). -/
def maskedSet (mask : Edge → Bool) (v : ℚ) (layer : List Edge) : List Edge :=
  layer.map fun e => if mask e then { e with beta := v } else e

/-- `is_abroad = (position != country)` for one agent. -/
def isAbroad (position country : Nat → String) (i : Nat) : Bool :=
  position i != country i

/-- `edge_abroad = is_abroad[p1] | is_abroad[p2]`. -/
def edgeAbroad (position country : Nat → String) (e : Edge) : Bool :=
  isAbroad position country e.p1 || isAbroad position country e.p2

/-- Step 3 of `CrosserTravel.apply` / `CrosserTravelMultilayer.apply`:
`beta[edge_abroad] = 0.0; beta[~edge_abroad] = 1.0` on a region-internal
layer (`base`, or `home`/`school`/`work`/`community`). -/
def resyncDomestic (position country : Nat → String) (layer : List Edge) : List Edge :=
  maskedSet (fun e => !edgeAbroad position country e) 1
    (maskedSet (edgeAbroad position country) 0 layer)

/-- `CrosserTravel.apply` on the single `cross` layer:
`beta[edge_abroad] = cross_beta; beta[~edge_abroad] = 0.0`. -/
def resyncCrossSingle (position country : Nat → String) (cb : ℚ) (layer : List Edge) :
    List Edge :=
  maskedSet (fun e => !edgeAbroad position country e) 0
    (maskedSet (edgeAbroad position country) cb layer)

/-- The crosser endpoint of a cross-layer edge, as the code picks it:
`c_ind = p1[i] if crosser[p1[i]] else p2[i]`. -/
def crosserEndpoint (crosser : Nat → Bool) (e : Edge) : Nat :=
  if crosser e.p1 then e.p1 else e.p2

/-- Per-edge activity test of step 4 of `CrosserTravelMultilayer.apply`:
the edge is active unless its crosser endpoint is at home, or the layer is
`cross_work` and the crosser's purpose is not `work`, or the layer is
`cross_home` and the purpose is not `visit`. -/
def activeEdge (crosser : Nat → Bool) (position country : Nat → String)
    (purpose : Nat → String) (lkey : String) (e : Edge) : Bool :=
  let c := crosserEndpoint crosser e
  if !isAbroad position country c then false
  else if lkey == "cross_work" && purpose c != "work" then false
  else if lkey == "cross_home" && purpose c != "visit" then false
  else true

/-- Step 4 of `CrosserTravelMultilayer.apply` on one purpose-routed cross
layer: `beta[active] = cb; beta[~active] = 0.0`. -/
def activateCross (crosser : Nat → Bool) (position country : Nat → String)
    (purpose : Nat → String) (lkey : String) (cb : ℚ) (layer : List Edge) : List Edge :=
  maskedSet (fun e => !activeEdge crosser position country purpose lkey e) 0
    (maskedSet (activeEdge crosser position country purpose lkey) cb layer)

/-! ## Mobility state machine (`CrosserTravel` / `CrosserTravelMultilayer`) -/

/-- Immutable per-agent attributes read by the mobility machine. -/
structure Agents where
  country : Nat → String
  crosser : Nat → Bool
  purpose : Nat → String

/-- Per-day health-status holds supplied by the host engine. -/
structure Health where
  quarantined : Nat → Bool
  isolated : Nat → Bool

/-- Mutable mobility state: `position` array and the private `_return_day`
array (`nan` ↦ `none`). -/
structure MobState where
  position : Nat → String
  returnDay : Nat → Option Nat

/-- Static configuration of the mobility machine (day numbers after
`sim.day` conversion; `CrosserTravel` has no resume day, i.e.
`resumeDayOutbound = none`). -/
structure MobParams where
  startDay : Nat
  endDayOutbound : Option Nat
  resumeDayOutbound : Option Nat
  nameA : String
  nameB : String
  durationMin : Nat
  durationMax : Nat

/-- `returning = crosser & (return_day == t) & ~quarantined & ~isolated`.
(The numpy comparison `return_day == t` is exact equality; `nan` compares
false.) -/
def returningF (ag : Agents) (h : Health) (st : MobState) (t : Nat) (i : Nat) : Bool :=
  ag.crosser i && (st.returnDay i == some t) && !h.quarantined i && !h.isolated i

/-- Step 1 of `apply`: agents due today and unheld get `position := country`
and their return day cleared. -/
def returnStep (ag : Agents) (h : Health) (t : Nat) (st : MobState) : MobState where
  position i := if returningF ag h st t i then ag.country i else st.position i
  returnDay i := if returningF ag h st t i then none else st.returnDay i

/-- `at_home = crosser & isnan(return_day) & ~quarantined & ~isolated`. -/
def atHome (ag : Agents) (h : Health) (st : MobState) (i : Nat) : Bool :=
  ag.crosser i && (st.returnDay i).isNone && !h.quarantined i && !h.isolated i

/-- The outbound-window test of `CrosserTravelMultilayer.apply`
(`allow_outbound`); `CrosserTravel.apply` is the special case
`resumeDayOutbound = none`. -/
def allowOutbound (mp : MobParams) (t : Nat) : Bool :=
  decide (mp.startDay ≤ t) &&
    (match mp.endDayOutbound with
     | none => true
     | some e =>
       decide (t < e) ||
         (match mp.resumeDayOutbound with
          | none => false
          | some r => decide (r ≤ t)))

/-- Destination of a departing agent: `np.where(country == name_a, name_b,
name_a)`. -/
def oppositeRegion (mp : MobParams) (c : String) : String :=
  if c == mp.nameA then mp.nameB else mp.nameA

/-- Step 2 of `apply`: when the outbound window is open, the sampled agents
`goInds` (oracle for `np.random.choice(at_home_inds, n_go, replace=False)`)
get `return_day := t + dur` (oracle for `np.random.randint(duration_min,
duration_max+1)`) and `position :=` the opposite region; otherwise nothing
changes. -/
def departStep (ag : Agents) (mp : MobParams) (t : Nat) (goInds : List Nat)
    (dur : Nat → Nat) (st : MobState) : MobState :=
  if allowOutbound mp t then
    { position := fun i =>
        if i ∈ goInds then oppositeRegion mp (ag.country i) else st.position i
      returnDay := fun i =>
        if i ∈ goInds then some (t + dur i) else st.returnDay i }
  else st

/-- One day of the mobility machine's agent-state updates: returns first,
then departures (steps 1 and 2 of `apply`; the weight resyncs, steps 3–4,
act on layers and are modelled separately). -/
def dailyMove (ag : Agents) (h : Health) (mp : MobParams) (t : Nat)
    (goInds : List Nat) (dur : Nat → Nat) (st : MobState) : MobState :=
  departStep ag mp t goInds dur (returnStep ag h t st)

/-! ## Python numeric helpers -/

/-- Python `int(q)`: truncation toward zero. -/
def pyInt (q : ℚ) : ℤ :=
  if 0 ≤ q then ⌊q⌋ else -⌊-q⌋

/-- Traveler count per region in `add_cross_layer` /
`add_cross_layer_multilayer`: `max(1, int(frac_travelers * len(inds)))`. -/
def nTravelers (frac : ℚ) (regionSize : Nat) : Nat :=
  max 1 (pyInt (frac * regionSize)).toNat

/-! ## Cross-layer synthesis (`CrossNetwork.py`) -/

/-- Indices of the agents of one region:
`np.where(countries == name)[0]`, as a recursion on the country list. -/
def indsOfFrom (countries : List String) (name : String) (k : Nat) : List Nat :=
  match countries with
  | [] => []
  | c :: cs =>
    if c == name then k :: indsOfFrom cs name (k + 1) else indsOfFrom cs name (k + 1)

def indsOf (countries : List String) (name : String) : List Nat :=
  indsOfFrom countries name 0

/-- Number of distinct region labels, `len(np.unique(countries))`. -/
def numRegions (countries : List String) : Nat :=
  countries.eraseDups.length

/-- The edges one traveler contributes: `n_cross_per_person` partners drawn
with replacement from the opposite region (oracle `partners`), each giving a
directed pair (traveler, partner). -/
def travelerEdges (partners : Nat → List Nat) (c : Nat) : List (Nat × Nat) :=
  (partners c).map fun p => (c, p)

/-- All edges contributed by a list of travelers (`make_cross_edges`, and
the two loops of `add_cross_layer`). -/
def crossEdges (travelers : List Nat) (partners : Nat → List Nat) : List (Nat × Nat) :=
  (travelers.map (travelerEdges partners)).flatten

/-- Result of `add_cross_layer`: the new `crosser` flag array and the
synthesized `cross` layer (`none` when the function early-returns without
adding a layer). -/
structure CrossResult where
  crosser : Nat → Bool
  crossEdges : Option (List (Nat × Nat))

/-- `add_cross_layer` (single-layer mode).  `travelersA`/`travelersB` are
oracles for the two `rng.choice(inds, size=n_travelers, replace=False)`
draws, `partnersA`/`partnersB` for the per-traveler
`rng.choice(opposite_inds, size=n_cross_per_person, replace=True)` draws.
The `crosser` array is created (all `False`) before the region checks, so
both early returns leave it all-`False` with no layer added. -/
def addCrossLayer (countries : List String) (nameA nameB : String)
    (travelersA travelersB : List Nat)
    (partnersA partnersB : Nat → List Nat) : CrossResult :=
  if numRegions countries < 2 then
    { crosser := fun _ => false, crossEdges := none }
  else
    let indsA := indsOf countries nameA
    let indsB := indsOf countries nameB
    if indsA.length == 0 || indsB.length == 0 then
      { crosser := fun _ => false, crossEdges := none }
    else
      { crosser := fun i => travelersA.contains i || travelersB.contains i
        crossEdges := some (crossEdges travelersA partnersA ++
                            crossEdges travelersB partnersB) }

/-- The numpy contract of the traveler/partner draws of `add_cross_layer`:
each traveler list is a no-duplicate sample of the right size from its
region, and every partner list is a size-`k` sample (with replacement) from
the opposite region. -/
def validDraws (countries : List String) (nameA nameB : String) (frac : ℚ) (k : Nat)
    (travelersA travelersB : List Nat) (partnersA partnersB : Nat → List Nat) : Prop :=
  travelersA.Nodup ∧ travelersB.Nodup ∧
  travelersA.length = nTravelers frac (indsOf countries nameA).length ∧
  travelersB.length = nTravelers frac (indsOf countries nameB).length ∧
  (∀ i ∈ travelersA, i ∈ indsOf countries nameA) ∧
  (∀ i ∈ travelersB, i ∈ indsOf countries nameB) ∧
  (∀ c ∈ travelersA, (partnersA c).length = k ∧
    ∀ p ∈ partnersA c, p ∈ indsOf countries nameB) ∧
  (∀ c ∈ travelersB, (partnersB c).length = k ∧
    ∀ p ∈ partnersB c, p ∈ indsOf countries nameA)

/-- Working-age filter of `add_cross_layer_multilayer`:
`inds[(ages[inds] >= 22) & (ages[inds] < 65)]`, falling back to the full
region when the subset is empty. -/
def workingSubset (ages : Nat → ℚ) (inds : List Nat) : List Nat :=
  let w := inds.filter fun i => decide (22 ≤ ages i) && decide (ages i < 65)
  if w.length == 0 then inds else w

/-- Result of `add_cross_layer_multilayer`: crosser flags, per-agent purpose
strings, and the three purpose-routed layers (each `none` when it would be
empty and is skipped, or when the function early-returned). -/
structure MultiCrossResult where
  crosser : Nat → Bool
  purpose : Nat → String
  crossWork : Option (List (Nat × Nat))
  crossCommunity : Option (List (Nat × Nat))
  crossHome : Option (List (Nat × Nat))

/-- A layer is added only when it has at least one edge
(`if len(p1_w) > 0: ... add_layer`). -/
def someIfNonempty (l : List (Nat × Nat)) : Option (List (Nat × Nat)) :=
  if l.length == 0 then none else some l

/-- `add_cross_layer_multilayer`.  Oracles: traveler draws as in the
single-layer version, a purpose assignment `purp` for the threshold test on
`rng.random(n)` (contract: values in {work, visit, undocumented} on
travelers), and one partner oracle per synthesized layer.  On the early
returns nothing is added (in this variant `crosser` is written only after
the region checks, so it is absent — modelled as all-`False` with all
layers `none`). -/
def addCrossLayerMultilayer (countries : List String)
    (nameA nameB : String) (travelersA travelersB : List Nat)
    (purp : Nat → String)
    (partnersWorkA partnersWorkB partnersCommA partnersCommB
      partnersHomeA partnersHomeB : Nat → List Nat) : MultiCrossResult :=
  if numRegions countries < 2 then
    { crosser := fun _ => false, purpose := fun _ => ""
      crossWork := none, crossCommunity := none, crossHome := none }
  else
    let indsA := indsOf countries nameA
    let indsB := indsOf countries nameB
    if indsA.length == 0 || indsB.length == 0 then
      { crosser := fun _ => false, purpose := fun _ => ""
        crossWork := none, crossCommunity := none, crossHome := none }
    else
      let isTraveler : Nat → Bool := fun i =>
        travelersA.contains i || travelersB.contains i
      let workA := travelersA.filter fun i => purp i == "work"
      let workB := travelersB.filter fun i => purp i == "work"
      let visitA := travelersA.filter fun i => purp i == "visit"
      let visitB := travelersB.filter fun i => purp i == "visit"
      { crosser := isTraveler
        purpose := fun i => if isTraveler i then purp i else ""
        crossWork := someIfNonempty
          (crossEdges workA partnersWorkA ++ crossEdges workB partnersWorkB)
        crossCommunity := someIfNonempty
          (crossEdges travelersA partnersCommA ++ crossEdges travelersB partnersCommB)
        crossHome := someIfNonempty
          (crossEdges visitA partnersHomeA ++ crossEdges visitB partnersHomeB) }

/-- The numpy contract of the draws of `add_cross_layer_multilayer`:
traveler samples as in the single-layer version; purposes of travelers come
from the three-way threshold split, so they lie in
{work, visit, undocumented}; work partners are drawn from the opposite
region's working-age subset (with fallback), community and home partners
from the full opposite region; every partner list has length `k`. -/
def validDrawsMulti (countries : List String) (ages : Nat → ℚ) (nameA nameB : String)
    (frac : ℚ) (k : Nat) (travelersA travelersB : List Nat) (purp : Nat → String)
    (partnersWorkA partnersWorkB partnersCommA partnersCommB
      partnersHomeA partnersHomeB : Nat → List Nat) : Prop :=
  travelersA.Nodup ∧ travelersB.Nodup ∧
  travelersA.length = nTravelers frac (indsOf countries nameA).length ∧
  travelersB.length = nTravelers frac (indsOf countries nameB).length ∧
  (∀ i ∈ travelersA, i ∈ indsOf countries nameA) ∧
  (∀ i ∈ travelersB, i ∈ indsOf countries nameB) ∧
  (∀ i, i ∈ travelersA ∨ i ∈ travelersB →
    purp i = "work" ∨ purp i = "visit" ∨ purp i = "undocumented") ∧
  (∀ c ∈ travelersA.filter (fun i => purp i == "work"),
    (partnersWorkA c).length = k ∧
    ∀ p ∈ partnersWorkA c, p ∈ workingSubset ages (indsOf countries nameB)) ∧
  (∀ c ∈ travelersB.filter (fun i => purp i == "work"),
    (partnersWorkB c).length = k ∧
    ∀ p ∈ partnersWorkB c, p ∈ workingSubset ages (indsOf countries nameA)) ∧
  (∀ c ∈ travelersA, (partnersCommA c).length = k ∧
    ∀ p ∈ partnersCommA c, p ∈ indsOf countries nameB) ∧
  (∀ c ∈ travelersB, (partnersCommB c).length = k ∧
    ∀ p ∈ partnersCommB c, p ∈ indsOf countries nameA) ∧
  (∀ c ∈ travelersA.filter (fun i => purp i == "visit"),
    (partnersHomeA c).length = k ∧
    ∀ p ∈ partnersHomeA c, p ∈ indsOf countries nameB) ∧
  (∀ c ∈ travelersB.filter (fun i => purp i == "visit"),
    (partnersHomeB c).length = k ∧
    ∀ p ∈ partnersHomeB c, p ∈ indsOf countries nameA)

/-! ## Phase-scaled weighting (`ScaleRegionBaseBetaByPhase`) -/

/-- Constructor normalization of the phase table:
`sorted(day_scale_pairs or [(0, 1.0)], key=lambda x: x[0])` (a stable sort
on the day component; `List.insertionSort` with a non-strict relation is
stable in the same way). -/
def mkDayScalePairs (ps : List (Nat × ℚ)) : List (Nat × ℚ) :=
  List.insertionSort (fun p q => p.1 ≤ q.1) (if ps.isEmpty then [(0, 1)] else ps)

/-- `_scale_for_day`: start from `s = 1.0` and overwrite with the scale of
every entry whose start day is at or before `t`, in table order; the last
qualifying entry wins. -/
def scaleForDay (pairs : List (Nat × ℚ)) (t : Nat) : ℚ :=
  pairs.foldl (fun s p => if p.1 ≤ t then p.2 else s) 1

/-- `in_a = (position == region_name)` at one endpoint. -/
def inRegion (position : Nat → String) (name : String) (i : Nat) : Bool :=
  position i == name

/-- `edge_in_a = in_a[p1] | in_a[p2]`. -/
def edgeInRegion (position : Nat → String) (name : String) (e : Edge) : Bool :=
  inRegion position name e.p1 || inRegion position name e.p2

/-- The mask `domestic_in_a = edge_in_a & ~edge_abroad` of
`ScaleRegionBaseBetaByPhase.apply` (and `MaskWearingLayerSpecific.apply`). -/
def domesticInRegion (position country : Nat → String) (name : String) (e : Edge) : Bool :=
  edgeInRegion position name e && !edgeAbroad position country e

/-- `ScaleRegionBaseBetaByPhase.apply` on the base layer at day `t`:
`beta[domestic_in_a] = scale` (a masked overwrite). -/
def applyPhaseScale (pairs : List (Nat × ℚ)) (position country : Nat → String)
    (name : String) (t : Nat) (layer : List Edge) : List Edge :=
  maskedSet (domesticInRegion position country name) (scaleForDay pairs t) layer

/-! ## Partial edge removal (`WorkFromHomeA` / `CommunityRestrictA`) -/

/-- `np.where(mask)[0]` over a layer: indices of the edges satisfying a
predicate, counting from `k`. -/
def indicesWhereFrom (p : Edge → Bool) (layer : List Edge) (k : Nat) : List Nat :=
  match layer with
  | [] => []
  | e :: es =>
    if p e then k :: indicesWhereFrom p es (k + 1) else indicesWhereFrom p es (k + 1)

def indicesWhere (p : Edge → Bool) (layer : List Edge) : List Nat :=
  indicesWhereFrom p layer 0

/-- `np.delete(arr, inds)` restricted to a layer: keep, in order, the edges
whose index (counting from `k`) is not listed. -/
def removeAtFrom (inds : List Nat) (layer : List Edge) (k : Nat) : List Edge :=
  match layer with
  | [] => []
  | e :: es =>
    if inds.contains k then removeAtFrom inds es (k + 1)
    else e :: removeAtFrom inds es (k + 1)

/-- `Layer.pop_inds(inds)`: the remaining layer (`np.delete`) and the popped
rows (`arr[inds]`, in the order of `inds`). -/
def popInds (layer : List Edge) (inds : List Nat) : List Edge × List Edge :=
  (removeAtFrom inds layer 0, inds.filterMap fun i => layer[i]?)

/-- `n_remove = int(n_total * (1 - fraction))`. -/
def nRemove (nTotal : Nat) (fraction : ℚ) : ℤ :=
  pyInt (nTotal * (1 - fraction))

/-- Persistent state of a removal intervention: the targeted layer, the
stored popped rows (`_stored_contacts`) and the `_applied` flag. -/
structure RemovalState where
  layer : List Edge
  stored : Option (List Edge)
  applied : Bool

/-- The shared body of `WorkFromHomeA.apply` / `CommunityRestrictA.apply`
(they differ only in target layer key and default fraction).  `shuffled` is
the oracle for `rng.shuffle(inds_all)`: a permutation of
`np.where(edge_in_a)[0]`.  At `start_day` (when not yet applied) the first
`n_remove` shuffled in-region edge indices are popped and stored; at
`end_day` (when applied) the stored rows are appended back. -/
def applyRemoval (startDay : Nat) (endDay : Option Nat) (fraction : ℚ)
    (position : Nat → String) (name : String) (t : Nat) (shuffled : List Nat)
    (st : RemovalState) : RemovalState :=
  if t == startDay && !st.applied then
    let nTotal := (indicesWhere (edgeInRegion position name) st.layer).length
    if nTotal == 0 then st
    else if nRemove nTotal fraction ≤ 0 then st
    else
      let toRemove := shuffled.take (nRemove nTotal fraction).toNat
      let res := popInds st.layer toRemove
      { layer := res.1, stored := some res.2, applied := true }
  else if endDay == some t && st.applied then
    { layer := st.layer ++ st.stored.getD [], stored := st.stored, applied := false }
  else st

/-! ## Custom population builder (`mytest.py: create_custom_population`) -/

/-- The recognized topology kinds, the `.name` strings of the
`enums.NetWorkType` members dispatched on in `create_custom_population`. -/
def knownNetworkTypes : List String :=
  ["scale_free", "microstructured", "random"]

/-- The Python error raised when `cv.Layer(**layer_contacts)` reads the
never-assigned local `layer_contacts` (unrecognized kind on the first
layer config). -/
inductive PyError where
  | unboundLocalLayerContacts
  deriving Repr, DecidableEq

/-- The per-layer loop of `create_custom_population`, with Python local
variable semantics: `layer_contacts` (here `cur`) persists across
iterations, is reassigned only when the config's `network_type` is one of
the recognized kinds, and is read unconditionally when building the layer
— an unrecognized kind therefore either raises (no previous binding) or
silently reuses the previous layer's contacts.  `gen` abstracts the actual
contact generation (`cv.make_*_contacts`). -/
def buildLayersLoop (gen : String → String → List (Nat × Nat)) :
    List (String × String) → Option (List (Nat × Nat)) →
    Except PyError (List (String × List (Nat × Nat)))
  | [], _ => .ok []
  | (lname, ntype) :: rest, cur =>
    let cur' := if knownNetworkTypes.contains ntype then some (gen lname ntype) else cur
    match cur' with
    | none => .error .unboundLocalLayerContacts
    | some lc => (buildLayersLoop gen rest (some lc)).map fun ls => (lname, lc) :: ls

/-- `create_custom_population` restricted to its layer-construction control
flow (ages/sexes/uids omitted: the claims under study concern only the
error behavior and which contacts each layer receives). -/
def createCustomPopulation (gen : String → String → List (Nat × Nat))
    (configs : List (String × String)) :
    Except PyError (List (String × List (Nat × Nat))) :=
  buildLayersLoop gen configs none

/-! ## Helper lemmas -/

/-- A pair of complementary masked writes `beta[m] = v; beta[~m] = w` is a
pointwise recomputation, provided the mask ignores `beta`. -/
theorem maskedSet_pair (m : Edge → Bool)
    (hm : ∀ (e : Edge) (v' : ℚ), m { e with beta := v' } = m e) (v w : ℚ)
    (l : List Edge) :
    maskedSet (fun e => !m e) w (maskedSet m v l) =
      l.map fun e => { e with beta := if m e then v else w } := by
  unfold maskedSet
  rw [List.map_map]
  apply List.map_congr_left
  intro e _
  by_cases h : m e = true
  · simp [Function.comp, h, hm]
  · simp only [Bool.not_eq_true] at h
    simp [Function.comp, h, hm]

theorem edgeAbroad_beta (position country : Nat → String) (e : Edge) (v : ℚ) :
    edgeAbroad position country { e with beta := v } = edgeAbroad position country e := rfl

theorem activeEdge_beta (crosser : Nat → Bool) (position country : Nat → String)
    (purpose : Nat → String) (lkey : String) (e : Edge) (v : ℚ) :
    activeEdge crosser position country purpose lkey { e with beta := v } =
      activeEdge crosser position country purpose lkey e := rfl

theorem resyncDomestic_map (position country : Nat → String) (layer : List Edge) :
    resyncDomestic position country layer =
      layer.map fun e =>
        { e with beta := if edgeAbroad position country e then 0 else 1 } :=
  maskedSet_pair _ (edgeAbroad_beta position country) 0 1 layer

theorem activateCross_map (crosser : Nat → Bool) (position country : Nat → String)
    (purpose : Nat → String) (lkey : String) (cb : ℚ) (layer : List Edge) :
    activateCross crosser position country purpose lkey cb layer =
      layer.map fun e =>
        { e with beta :=
            if activeEdge crosser position country purpose lkey e then cb else 0 } :=
  maskedSet_pair _ (activeEdge_beta crosser position country purpose lkey) cb 0 layer

/-! ## Claim theorems -/

/-- C5: after the daily domestic weight resync, every edge of a
region-internal layer has weight 0 when at least one endpoint's current
position differs from its country and weight 1 otherwise, with endpoints
untouched; and the result is a full recomputation — it depends only on the
edge endpoints, not on the incoming weights. -/
theorem claim_c5_domestic_resync (position country : Nat → String) (layer : List Edge) :
    resyncDomestic position country layer =
      (layer.map fun e =>
        { e with beta :=
            if position e.p1 ≠ country e.p1 ∨ position e.p2 ≠ country e.p2
            then 0 else 1 }) ∧
    ∀ layer₂ : List Edge,
      layer.map (fun e => (e.p1, e.p2)) = layer₂.map (fun e => (e.p1, e.p2)) →
      resyncDomestic position country layer = resyncDomestic position country layer₂ := by
  have hpt : ∀ l : List Edge,
      resyncDomestic position country l =
        (l.map fun e => (e.p1, e.p2)).map fun q =>
          { p1 := q.1, p2 := q.2
            beta := if position q.1 ≠ country q.1 ∨ position q.2 ≠ country q.2
                    then (0 : ℚ) else 1 } := by
    intro l
    rw [resyncDomestic_map, List.map_map]
    apply List.map_congr_left
    intro e _
    simp only [Function.comp]
    have : edgeAbroad position country e =
        decide (position e.p1 ≠ country e.p1 ∨ position e.p2 ≠ country e.p2) := by
      by_cases h1 : position e.p1 = country e.p1 <;>
        by_cases h2 : position e.p2 = country e.p2 <;>
          simp [edgeAbroad, isAbroad, bne, h1, h2]
    rw [this]
    by_cases h : position e.p1 ≠ country e.p1 ∨ position e.p2 ≠ country e.p2 <;>
      simp [h]
  constructor
  · rw [hpt layer, List.map_map]
    apply List.map_congr_left
    intro e _
    rfl
  · intro layer₂ hsame
    rw [hpt layer, hpt layer₂, hsame]

/-- C5 witness: the resync on a concrete two-edge layer (one endpoint of
the first edge away) yields weights 0 and 1 as stated, and agrees with the
resync of the same endpoints under different incoming weights. -/
theorem claim_c5_domestic_resync_witness :
    resyncDomestic (fun i => if i == 0 then "B" else "A") (fun _ => "A")
        [⟨0, 1, 7⟩, ⟨1, 2, 7⟩] =
      [⟨0, 1, 0⟩, ⟨1, 2, 1⟩] ∧
    resyncDomestic (fun i => if i == 0 then "B" else "A") (fun _ => "A")
        [⟨0, 1, 7⟩, ⟨1, 2, 7⟩] =
      resyncDomestic (fun i => if i == 0 then "B" else "A") (fun _ => "A")
        [⟨0, 1, 5⟩, ⟨1, 2, 3⟩] := by
  have h := claim_c5_domestic_resync (fun i => if i == 0 then "B" else "A")
    (fun _ => "A") [⟨0, 1, 7⟩, ⟨1, 2, 7⟩]
  refine ⟨?_, h.2 [⟨0, 1, 5⟩, ⟨1, 2, 3⟩] (by rfl)⟩
  rw [h.1]
  decide

/-- C6: after the cross-layer activation step of the multilayer mobility
machine, an edge of `cross_work` / `cross_community` / `cross_home` carries
the layer's configured cross-beta exactly when its crosser endpoint is away
from its country and the layer is `cross_community`, or the layer is
`cross_work` and that crosser's purpose is `work`, or the layer is
`cross_home` and the purpose is `visit`; otherwise its weight is 0. -/
theorem claim_c6_cross_activation (crosser : Nat → Bool)
    (position country purpose : Nat → String) (lkey : String) (cb : ℚ)
    (layer : List Edge)
    (hl : lkey = "cross_work" ∨ lkey = "cross_community" ∨ lkey = "cross_home") :
    activateCross crosser position country purpose lkey cb layer =
      layer.map fun e =>
        { e with beta :=
            if position (crosserEndpoint crosser e) ≠ country (crosserEndpoint crosser e) ∧
                (lkey = "cross_community" ∨
                  (lkey = "cross_work" ∧ purpose (crosserEndpoint crosser e) = "work") ∨
                  (lkey = "cross_home" ∧ purpose (crosserEndpoint crosser e) = "visit"))
            then cb else 0 } := by
  rw [activateCross_map]
  apply List.map_congr_left
  intro e _
  have hb : activeEdge crosser position country purpose lkey e =
      decide (position (crosserEndpoint crosser e) ≠ country (crosserEndpoint crosser e) ∧
        (lkey = "cross_community" ∨
          (lkey = "cross_work" ∧ purpose (crosserEndpoint crosser e) = "work") ∨
          (lkey = "cross_home" ∧ purpose (crosserEndpoint crosser e) = "visit"))) := by
    rcases hl with h | h | h <;> subst h <;>
      by_cases h1 : position (crosserEndpoint crosser e) =
          country (crosserEndpoint crosser e) <;>
        by_cases h2 : purpose (crosserEndpoint crosser e) = "work" <;>
          by_cases h3 : purpose (crosserEndpoint crosser e) = "visit" <;>
            simp +decide [activeEdge, isAbroad, bne, h1, h2, h3]
  rw [hb]
  by_cases hcond : position (crosserEndpoint crosser e) ≠
      country (crosserEndpoint crosser e) ∧
      (lkey = "cross_community" ∨
        (lkey = "cross_work" ∧ purpose (crosserEndpoint crosser e) = "work") ∨
        (lkey = "cross_home" ∧ purpose (crosserEndpoint crosser e) = "visit")) <;>
    simp [hcond]

/-- C6 witness: on a concrete `cross_work` layer with one away work-purpose
crosser and one at-home crosser, activation sets weights `cb = 6` and `0`. -/
theorem claim_c6_cross_activation_witness :
    activateCross (fun i => i == 0 || i == 2)
        (fun i => if i == 0 then "B" else "A") (fun _ => "A")
        (fun i => if i == 0 || i == 2 then "work" else "") "cross_work" 6
        [⟨0, 1, 9⟩, ⟨2, 3, 9⟩] =
      [⟨0, 1, 6⟩, ⟨2, 3, 0⟩] := by
  rw [claim_c6_cross_activation (fun i => i == 0 || i == 2)
    (fun i => if i == 0 then "B" else "A") (fun _ => "A")
    (fun i => if i == 0 || i == 2 then "work" else "") "cross_work" 6
    [⟨0, 1, 9⟩, ⟨2, 3, 9⟩] (Or.inl rfl)]
  decide

/-- C9: each daily mobility step writes `position` only for crossers — the
return step only returns crossers and the departure step only moves agents
sampled from the at-home crossers — so for every non-crosser a day step
preserves both `position` and the return-day, and in particular preserves
`position = country`. -/
theorem claim_c9_noncrosser_position (ag : Agents) (h : Health) (mp : MobParams)
    (t : Nat) (goInds : List Nat) (dur : Nat → Nat) (st : MobState) (i : Nat)
    (hgo : ∀ g ∈ goInds, atHome ag h (returnStep ag h t st) g = true)
    (hc : ag.crosser i = false) :
    (dailyMove ag h mp t goInds dur st).position i = st.position i ∧
    (dailyMove ag h mp t goInds dur st).returnDay i = st.returnDay i ∧
    (st.position i = ag.country i →
      (dailyMove ag h mp t goInds dur st).position i = ag.country i) := by
  have hret : returningF ag h st t i = false := by
    simp [returningF, hc]
  have hmem : i ∉ goInds := by
    intro hmemi
    have hhome := hgo i hmemi
    rw [atHome, hc] at hhome
    simp at hhome
  have hpos : (dailyMove ag h mp t goInds dur st).position i = st.position i := by
    unfold dailyMove departStep returnStep
    by_cases ha : allowOutbound mp t = true <;> simp [ha, hret, hmem]
  have hrd : (dailyMove ag h mp t goInds dur st).returnDay i = st.returnDay i := by
    unfold dailyMove departStep returnStep
    by_cases ha : allowOutbound mp t = true <;> simp [ha, hret, hmem]
  exact ⟨hpos, hrd, fun hpc => by rw [hpos, hpc]⟩

/-- C9 witness: a concrete non-crosser at home keeps `position = country`
through a day step that returns one crosser and sends another abroad. -/
theorem claim_c9_noncrosser_position_witness :
    atHome ⟨fun _ => "A", fun i => i == 1 || i == 2, fun _ => ""⟩
        ⟨fun _ => false, fun _ => false⟩
        (returnStep ⟨fun _ => "A", fun i => i == 1 || i == 2, fun _ => ""⟩
          ⟨fun _ => false, fun _ => false⟩ 4
          ⟨fun i => if i == 2 then "B" else "A",
           fun i => if i == 2 then some 4 else none⟩) 1 = true ∧
    (dailyMove ⟨fun _ => "A", fun i => i == 1 || i == 2, fun _ => ""⟩
        ⟨fun _ => false, fun _ => false⟩ ⟨0, none, none, "A", "B", 1, 7⟩ 4 [1]
        (fun _ => 3)
        ⟨fun i => if i == 2 then "B" else "A",
         fun i => if i == 2 then some 4 else none⟩).position 0 = "A" := by
  constructor
  · decide
  · have h := claim_c9_noncrosser_position
      ⟨fun _ => "A", fun i => i == 1 || i == 2, fun _ => ""⟩
      ⟨fun _ => false, fun _ => false⟩ ⟨0, none, none, "A", "B", 1, 7⟩ 4 [1]
      (fun _ => 3)
      ⟨fun i => if i == 2 then "B" else "A",
       fun i => if i == 2 then some 4 else none⟩ 0
      (by
        intro g hg
        have hg1 : g = 1 := by simpa using hg
        subst hg1
        decide) (by decide)
    exact h.2.2 (by decide)

/-- C8: the departure step acts only while the outbound window is open
(`start_day ≤ t` and: no `end_day_outbound`, or `t < end_day_outbound`, or
a `resume_day_outbound` is set with `t ≥ resume_day_outbound`); on such a
day every departing agent is an at-home unheld crosser whose position
becomes the opposite region and whose return-day becomes `t + duration`
with the duration inside `[duration_min, duration_max]`; outside the window
the step changes nothing, and agents not sampled are never touched. -/
theorem claim_c8_departure_window (ag : Agents) (h : Health) (mp : MobParams)
    (t : Nat) (goInds : List Nat) (dur : Nat → Nat) (st : MobState)
    (hgo : ∀ g ∈ goInds, atHome ag h st g = true)
    (hdur : ∀ g ∈ goInds, mp.durationMin ≤ dur g ∧ dur g ≤ mp.durationMax)
    (hctry : ∀ i, ag.country i = mp.nameA ∨ ag.country i = mp.nameB)
    (hab : mp.nameA ≠ mp.nameB) :
    (allowOutbound mp t = true ↔
      mp.startDay ≤ t ∧
        (mp.endDayOutbound = none ∨
          (∃ e, mp.endDayOutbound = some e ∧ t < e) ∨
          (∃ r, mp.resumeDayOutbound = some r ∧ r ≤ t))) ∧
    (allowOutbound mp t = false → departStep ag mp t goInds dur st = st) ∧
    (allowOutbound mp t = true → ∀ g ∈ goInds,
      ag.crosser g = true ∧ st.returnDay g = none ∧
      h.quarantined g = false ∧ h.isolated g = false ∧
      (departStep ag mp t goInds dur st).position g =
        oppositeRegion mp (ag.country g) ∧
      (departStep ag mp t goInds dur st).position g ≠ ag.country g ∧
      (departStep ag mp t goInds dur st).returnDay g = some (t + dur g) ∧
      mp.durationMin ≤ dur g ∧ dur g ≤ mp.durationMax) ∧
    (∀ i, i ∉ goInds →
      (departStep ag mp t goInds dur st).position i = st.position i ∧
      (departStep ag mp t goInds dur st).returnDay i = st.returnDay i) := by
  refine ⟨?_, ?_, ?_, ?_⟩
  · unfold allowOutbound
    cases he : mp.endDayOutbound with
    | none => simp
    | some e =>
      cases hr : mp.resumeDayOutbound with
      | none => simp
      | some r => simp
  · intro hfalse
    unfold departStep
    rw [hfalse]
    simp
  · intro htrue g hg
    have hhome := hgo g hg
    rw [atHome] at hhome
    simp only [Bool.and_eq_true, Bool.not_eq_true', Option.isNone_iff_eq_none] at hhome
    obtain ⟨⟨⟨hcr, hrd⟩, hq⟩, hi⟩ := hhome
    have hpos : (departStep ag mp t goInds dur st).position g =
        oppositeRegion mp (ag.country g) := by
      unfold departStep
      rw [htrue]
      simp [hg]
    have hne : oppositeRegion mp (ag.country g) ≠ ag.country g := by
      rcases hctry g with hc | hc <;> rw [oppositeRegion, hc]
      · simpa using fun hEq => hab hEq.symm
      · have : (mp.nameB == mp.nameA) = false := by
          simpa using fun hEq => hab hEq.symm
        rw [this]
        simpa using hab
    refine ⟨hcr, hrd, hq, hi, hpos, by rw [hpos]; exact hne, ?_, hdur g hg⟩
    unfold departStep
    rw [htrue]
    simp [hg]
  · intro i hi
    unfold departStep
    by_cases ha : allowOutbound mp t = true
    · rw [ha]
      simp [hi]
    · rw [Bool.not_eq_true] at ha
      rw [ha]
      simp

/-- C8 witness: with window `[2, 5)`, at `t = 3` a sampled at-home crosser
moves to region B with return-day `3 + 2`. -/
theorem claim_c8_departure_window_witness :
    (departStep ⟨fun _ => "A", fun _ => true, fun _ => ""⟩
      ⟨2, some 5, none, "A", "B", 1, 7⟩ 3 [0] (fun _ => 2)
      ⟨fun _ => "A", fun _ => none⟩).position 0 = "B" ∧
    (departStep ⟨fun _ => "A", fun _ => true, fun _ => ""⟩
      ⟨2, some 5, none, "A", "B", 1, 7⟩ 3 [0] (fun _ => 2)
      ⟨fun _ => "A", fun _ => none⟩).returnDay 0 = some 5 := by
  have h := claim_c8_departure_window ⟨fun _ => "A", fun _ => true, fun _ => ""⟩
    ⟨fun _ => false, fun _ => false⟩ ⟨2, some 5, none, "A", "B", 1, 7⟩ 3 [0]
    (fun _ => 2) ⟨fun _ => "A", fun _ => none⟩
    (by decide) (by decide) (fun i => Or.inl rfl) (by decide)
  have hg := h.2.2.1 (by decide) 0 (by decide)
  exact ⟨hg.2.2.2.2.1, hg.2.2.2.2.2.2.1⟩

/-- C1 counterexample: a quarantined crosser (away in B, country A,
return-day 5) is held on day 5, and on day 6 — the first day it is unheld
and the day is at/after its return-day — the daily step still leaves it
away with its return-day uncleared, because the return test is the exact
equality `return_day == t`: the deferred return never happens. -/
theorem claim_c1_counterexample :
    (dailyMove ⟨fun _ => "A", fun _ => true, fun _ => ""⟩
        ⟨fun _ => false, fun _ => false⟩ ⟨0, none, none, "A", "B", 1, 7⟩ 6 []
        (fun _ => 1)
        (dailyMove ⟨fun _ => "A", fun _ => true, fun _ => ""⟩
          ⟨fun _ => true, fun _ => false⟩ ⟨0, none, none, "A", "B", 1, 7⟩ 5 []
          (fun _ => 1)
          ⟨fun _ => "B", fun _ => some 5⟩)).position 0 ≠ "A" ∧
    (dailyMove ⟨fun _ => "A", fun _ => true, fun _ => ""⟩
        ⟨fun _ => false, fun _ => false⟩ ⟨0, none, none, "A", "B", 1, 7⟩ 6 []
        (fun _ => 1)
        (dailyMove ⟨fun _ => "A", fun _ => true, fun _ => ""⟩
          ⟨fun _ => true, fun _ => false⟩ ⟨0, none, none, "A", "B", 1, 7⟩ 5 []
          (fun _ => 1)
          ⟨fun _ => "B", fun _ => some 5⟩)).returnDay 0 ≠ none := by
  constructor <;> decide

/-- C1 amended: the return fires only on the exact day `t` that equals the
agent's return-day and only if the agent is unheld that day; an agent held
on its return-day keeps its away position with the return-day retained, and
on every later day the pending return-day no longer matches `t`, so the
daily step never returns the agent — the return is skipped, not deferred. -/
theorem claim_c1_return_equality (ag : Agents) (h : Health) (mp : MobParams)
    (t : Nat) (goInds : List Nat) (dur : Nat → Nat) (st : MobState) (i : Nat)
    (hgo : ∀ g ∈ goInds, atHome ag h (returnStep ag h t st) g = true) :
    (st.returnDay i = some t → ag.crosser i = true → h.quarantined i = false →
      h.isolated i = false → i ∉ goInds →
      (dailyMove ag h mp t goInds dur st).position i = ag.country i ∧
      (dailyMove ag h mp t goInds dur st).returnDay i = none) ∧
    (st.returnDay i = some t → (h.quarantined i = true ∨ h.isolated i = true) →
      (dailyMove ag h mp t goInds dur st).position i = st.position i ∧
      (dailyMove ag h mp t goInds dur st).returnDay i = some t) ∧
    (∀ r, st.returnDay i = some r → r ≠ t →
      (dailyMove ag h mp t goInds dur st).position i = st.position i ∧
      (dailyMove ag h mp t goInds dur st).returnDay i = some r) := by
  refine ⟨?_, ?_, ?_⟩
  · intro hrd hcr hq hi hmem
    have hret : returningF ag h st t i = true := by
      simp [returningF, hrd, hcr, hq, hi]
    unfold dailyMove departStep returnStep
    by_cases ha : allowOutbound mp t = true <;> simp [ha, hret, hmem]
  · intro hrd hheld
    have hret : returningF ag h st t i = false := by
      rcases hheld with hq | hq <;> simp [returningF, hq]
    have hmem : i ∉ goInds := by
      intro hmemi
      have hhome := hgo i hmemi
      rw [atHome] at hhome
      simp only [Bool.and_eq_true, Option.isNone_iff_eq_none] at hhome
      rw [returnStep] at hhome
      simp only [hret] at hhome
      rw [hrd] at hhome
      simp at hhome
    unfold dailyMove departStep returnStep
    by_cases ha : allowOutbound mp t = true <;> simp [ha, hret, hmem, hrd]
  · intro r hrd hne
    have hret : returningF ag h st t i = false := by
      simp [returningF, hrd]
      intro h1 h2
      exact absurd h2 hne
    have hmem : i ∉ goInds := by
      intro hmemi
      have hhome := hgo i hmemi
      rw [atHome] at hhome
      simp only [Bool.and_eq_true, Option.isNone_iff_eq_none] at hhome
      rw [returnStep] at hhome
      simp only [hret] at hhome
      rw [hrd] at hhome
      simp at hhome
    unfold dailyMove departStep returnStep
    by_cases ha : allowOutbound mp t = true <;> simp [ha, hret, hmem, hrd]

/-- C1 amended witness: the held agent of the counterexample keeps its away
position and return-day on day 5, and day 6 (unheld, past due) leaves the
pending return-day `5` untouched. -/
theorem claim_c1_return_equality_witness :
    ((dailyMove ⟨fun _ => "A", fun _ => true, fun _ => ""⟩
        ⟨fun _ => true, fun _ => false⟩ ⟨0, none, none, "A", "B", 1, 7⟩ 5 []
        (fun _ => 1) ⟨fun _ => "B", fun _ => some 5⟩).position 0 = "B" ∧
      (dailyMove ⟨fun _ => "A", fun _ => true, fun _ => ""⟩
        ⟨fun _ => true, fun _ => false⟩ ⟨0, none, none, "A", "B", 1, 7⟩ 5 []
        (fun _ => 1) ⟨fun _ => "B", fun _ => some 5⟩).returnDay 0 = some 5) ∧
    ((dailyMove ⟨fun _ => "A", fun _ => true, fun _ => ""⟩
        ⟨fun _ => false, fun _ => false⟩ ⟨0, none, none, "A", "B", 1, 7⟩ 6 []
        (fun _ => 1) ⟨fun _ => "B", fun _ => some 5⟩).position 0 = "B" ∧
      (dailyMove ⟨fun _ => "A", fun _ => true, fun _ => ""⟩
        ⟨fun _ => false, fun _ => false⟩ ⟨0, none, none, "A", "B", 1, 7⟩ 6 []
        (fun _ => 1) ⟨fun _ => "B", fun _ => some 5⟩).returnDay 0 = some 5) := by
  constructor
  · exact (claim_c1_return_equality ⟨fun _ => "A", fun _ => true, fun _ => ""⟩
      ⟨fun _ => true, fun _ => false⟩ ⟨0, none, none, "A", "B", 1, 7⟩ 5 []
      (fun _ => 1) ⟨fun _ => "B", fun _ => some 5⟩ 0 (by intro g hg; simp at hg)).2.1
      rfl (Or.inl rfl)
  · exact (claim_c1_return_equality ⟨fun _ => "A", fun _ => true, fun _ => ""⟩
      ⟨fun _ => false, fun _ => false⟩ ⟨0, none, none, "A", "B", 1, 7⟩ 6 []
      (fun _ => 1) ⟨fun _ => "B", fun _ => some 5⟩ 0 (by intro g hg; simp at hg)).2.2
      5 rfl (by decide)

instance : IsTotal (Nat × ℚ) (fun p q => p.1 ≤ q.1) :=
  ⟨fun a b => Nat.le_total a.1 b.1⟩

instance : IsTrans (Nat × ℚ) (fun p q => p.1 ≤ q.1) :=
  ⟨fun _ _ _ => Nat.le_trans⟩

/-- String `==` agrees with propositional equality under `decide`. -/
theorem strBeq_decide (a b : String) : (a == b) = decide (a = b) := by
  by_cases h : a = b <;> simp [h]

/-- The fold in `_scale_for_day` keeps the scale of the last table entry
whose day is at or before `t` (the initial value if none qualifies). -/
theorem scaleForDay_foldl (t : Nat) :
    ∀ (qs : List (Nat × ℚ)) (s0 : ℚ),
      qs.foldl (fun s p => if p.1 ≤ t then p.2 else s) s0 =
        ((qs.filter fun p => decide (p.1 ≤ t)).map Prod.snd).getLastD s0 := by
  intro qs
  induction qs with
  | nil => intro s0; rfl
  | cons q qs ih =>
    intro s0
    by_cases hq : q.1 ≤ t
    · rw [List.foldl_cons, List.filter_cons_of_pos (by simpa using hq), if_pos hq,
        List.map_cons, List.getLastD_cons, ih]
    · rw [List.foldl_cons, List.filter_cons_of_neg (by simpa using hq), if_neg hq, ih]

/-- On a list with strictly increasing days, the fold of `_scale_for_day`
returns the scale of the unique latest entry whose day is ≤ `t`. -/
theorem scaleForDay_latest (t : Nat) :
    ∀ (qs : List (Nat × ℚ)) (e : Nat × ℚ), List.Pairwise (fun p q => p.1 < q.1) qs →
      e ∈ qs → e.1 ≤ t → (∀ e' ∈ qs, e'.1 ≤ t → e'.1 ≤ e.1) →
      ∀ s0 : ℚ,
        ((qs.filter fun p => decide (p.1 ≤ t)).map Prod.snd).getLastD s0 = e.2 := by
  intro qs
  induction qs with
  | nil => intro e _ he; exact absurd he (List.not_mem_nil e)
  | cons q qs ih =>
    intro e hpw he het hmax s0
    rcases List.mem_cons.mp he with heq | hmem
    · subst heq
      have hnone : qs.filter (fun p => decide (p.1 ≤ t)) = [] := by
        rw [List.filter_eq_nil_iff]
        intro p hp
        simp only [decide_eq_true_eq]
        intro hpt
        have hlt := (List.pairwise_cons.mp hpw).1 p hp
        exact absurd (hmax p (List.mem_cons_of_mem _ hp) hpt) (Nat.not_le.mpr hlt)
      rw [List.filter_cons_of_pos (by simpa using het), hnone]
      rfl
    · have hqe := (List.pairwise_cons.mp hpw).1 e hmem
      have hqt : q.1 ≤ t := Nat.le_trans (Nat.le_of_lt hqe) het
      rw [List.filter_cons_of_pos (by simpa using hqt), List.map_cons,
        List.getLastD_cons]
      exact ih e (List.pairwise_cons.mp hpw).2 hmem het
        (fun e' he' => hmax e' (List.mem_cons_of_mem _ he')) q.2

/-- Non-strict sortedness plus distinct days gives strictly increasing
days. -/
theorem pairwise_fst_lt_of_sorted_nodup (qs : List (Nat × ℚ))
    (hs : List.Pairwise (fun p q : Nat × ℚ => p.1 ≤ q.1) qs)
    (hn : (qs.map Prod.fst).Nodup) :
    List.Pairwise (fun p q : Nat × ℚ => p.1 < q.1) qs := by
  rw [List.Nodup, List.pairwise_map] at hn
  exact (hs.and hn).imp fun h => Nat.lt_of_le_of_ne h.1 h.2

/-- C3 counterexample: with table `[(0, 2)]` and a domestic in-region base
edge of prior weight 3 on day 0, the intervention leaves the weight at 2 —
the entry's scale — not at `3 × 2` as multiplication would give: the code
overwrites the weight with the scale instead of multiplying by it. -/
theorem claim_c3_counterexample :
    applyPhaseScale (mkDayScalePairs [(0, 2)]) (fun _ => "A") (fun _ => "A") "A" 0
        [⟨0, 1, 3⟩] = [⟨0, 1, 2⟩] ∧
    ((3 : ℚ) * 2 ≠ 2) := by
  constructor
  · decide
  · norm_num

/-- C3 amended: on day `t` the active scale is the scale of the latest
table entry whose day is ≤ `t` (given distinct entry days), and the
intervention *sets* (overwrites, rather than multiplies) the weight of
every in-region edge with no endpoint abroad to that scale, leaving every
other edge untouched. -/
theorem claim_c3_phase_scale (ps : List (Nat × ℚ)) (position country : Nat → String)
    (name : String) (t : Nat) (layer : List Edge) (e : Nat × ℚ)
    (hnodup : (ps.map Prod.fst).Nodup) (he : e ∈ ps) (het : e.1 ≤ t)
    (hmax : ∀ e' ∈ ps, e'.1 ≤ t → e'.1 ≤ e.1) :
    scaleForDay (mkDayScalePairs ps) t = e.2 ∧
    applyPhaseScale (mkDayScalePairs ps) position country name t layer =
      layer.map fun ed =>
        if (position ed.p1 = name ∨ position ed.p2 = name) ∧
            position ed.p1 = country ed.p1 ∧ position ed.p2 = country ed.p2
        then { ed with beta := e.2 } else ed := by
  have hne : ¬ps.isEmpty := by
    cases ps with
    | nil => exact absurd he (List.not_mem_nil e)
    | cons a l => simp [List.isEmpty]
  have hperm : List.Perm (mkDayScalePairs ps) ps := by
    rw [mkDayScalePairs, if_neg hne]
    exact List.perm_insertionSort _ ps
  have hsorted : List.Pairwise (fun p q : Nat × ℚ => p.1 ≤ q.1) (mkDayScalePairs ps) := by
    rw [mkDayScalePairs, if_neg hne]
    exact List.sorted_insertionSort _ ps
  have hnodup' : ((mkDayScalePairs ps).map Prod.fst).Nodup :=
    (hperm.map Prod.fst).nodup_iff.mpr hnodup
  have hstrict := pairwise_fst_lt_of_sorted_nodup _ hsorted hnodup'
  have hscale : scaleForDay (mkDayScalePairs ps) t = e.2 := by
    rw [scaleForDay, scaleForDay_foldl]
    exact scaleForDay_latest t _ e hstrict (hperm.mem_iff.mpr he) het
      (fun e' he' => hmax e' (hperm.mem_iff.mp he')) 1
  refine ⟨hscale, ?_⟩
  rw [applyPhaseScale, hscale, maskedSet]
  apply List.map_congr_left
  intro ed _
  have hcond : domesticInRegion position country name ed =
      decide ((position ed.p1 = name ∨ position ed.p2 = name) ∧
        position ed.p1 = country ed.p1 ∧ position ed.p2 = country ed.p2) := by
    by_cases h1 : position ed.p1 = name <;>
      by_cases h2 : position ed.p2 = name <;>
        by_cases h3 : position ed.p1 = country ed.p1 <;>
          by_cases h4 : position ed.p2 = country ed.p2 <;>
            simp [domesticInRegion, edgeInRegion, inRegion, edgeAbroad, isAbroad,
              bne, strBeq_decide, h1, h2, h3, h4]
  rw [hcond]
  by_cases hc : (position ed.p1 = name ∨ position ed.p2 = name) ∧
      position ed.p1 = country ed.p1 ∧ position ed.p2 = country ed.p2 <;>
    simp [hc]

/-- C3 amended witness: table `[(0, 2), (10, 3)]` at day 12 selects scale 3
and overwrites the two domestic in-region edges, leaving the edge touching
an away endpoint alone. -/
theorem claim_c3_phase_scale_witness :
    scaleForDay (mkDayScalePairs [(0, 2), (10, 3)]) 12 = 3 ∧
    applyPhaseScale (mkDayScalePairs [(0, 2), (10, 3)])
        (fun i => if i == 9 then "B" else "A") (fun _ => "A") "A" 12
        [⟨0, 1, 1⟩, ⟨2, 9, 1⟩] =
      [⟨0, 1, 3⟩, ⟨2, 9, 1⟩] := by
  have h := claim_c3_phase_scale [(0, 2), (10, 3)]
    (fun i => if i == 9 then "B" else "A") (fun _ => "A") "A" 12
    [⟨0, 1, 1⟩, ⟨2, 9, 1⟩] (10, 3) (by decide)
    (by decide) (by decide) (by decide)
  refine ⟨h.1, ?_⟩
  rw [h.2]
  decide

/-- Indices listed by `indsOfFrom` point at entries equal to the region
name. -/
theorem indsOfFrom_spec (name : String) :
    ∀ (cs : List String) (k i : Nat), i ∈ indsOfFrom cs name k →
      k ≤ i ∧ cs[i - k]? = some name := by
  intro cs
  induction cs with
  | nil => intro k i hi; exact absurd hi (List.not_mem_nil i)
  | cons c cs ih =>
    intro k i hi
    by_cases hc : (c == name) = true
    · rw [indsOfFrom, if_pos hc] at hi
      rcases List.mem_cons.mp hi with rfl | hi'
      · refine ⟨Nat.le_refl i, ?_⟩
        rw [Nat.sub_self]
        have hcn : c = name := eq_of_beq hc
        simp [hcn]
      · obtain ⟨hk, hget⟩ := ih (k + 1) i hi'
        refine ⟨Nat.le_trans (Nat.le_succ k) hk, ?_⟩
        have hik : i - k = (i - (k + 1)) + 1 := by omega
        rw [hik, List.getElem?_cons_succ]
        exact hget
    · rw [indsOfFrom, if_neg hc] at hi
      obtain ⟨hk, hget⟩ := ih (k + 1) i hi
      refine ⟨Nat.le_trans (Nat.le_succ k) hk, ?_⟩
      have hik : i - k = (i - (k + 1)) + 1 := by omega
      rw [hik, List.getElem?_cons_succ]
      exact hget

/-- `np.where(countries == name)[0]` lists exactly indices whose country is
`name`. -/
theorem indsOf_country (countries : List String) (name : String) (i : Nat)
    (hi : i ∈ indsOf countries name) : countries[i]? = some name := by
  have h := indsOfFrom_spec name countries 0 i hi
  simpa using h.2

/-- Membership in the synthesized edge list of one direction. -/
theorem mem_crossEdges {e : Nat × Nat} {ts : List Nat} {ps : Nat → List Nat} :
    e ∈ crossEdges ts ps ↔ ∃ c ∈ ts, ∃ p ∈ ps c, e = (c, p) := by
  constructor
  · intro he
    rw [crossEdges, List.mem_flatten] at he
    obtain ⟨l, hl, hel⟩ := he
    rw [List.mem_map] at hl
    obtain ⟨c, hc, rfl⟩ := hl
    rw [travelerEdges, List.mem_map] at hel
    obtain ⟨p, hp, rfl⟩ := hel
    exact ⟨c, hc, p, hp, rfl⟩
  · rintro ⟨c, hc, p, hp, rfl⟩
    rw [crossEdges, List.mem_flatten]
    refine ⟨travelerEdges ps c, List.mem_map.mpr ⟨c, hc, rfl⟩, ?_⟩
    rw [travelerEdges, List.mem_map]
    exact ⟨p, hp, rfl⟩

/-- Edge count of one direction: `k` partners per traveler. -/
theorem crossEdges_length {ps : Nat → List Nat} {k : Nat} :
    ∀ {ts : List Nat}, (∀ c ∈ ts, (ps c).length = k) →
      (crossEdges ts ps).length = ts.length * k := by
  intro ts
  induction ts with
  | nil => intro _; simp [crossEdges]
  | cons c ts ih =>
    intro hlen
    have h1 : crossEdges (c :: ts) ps = travelerEdges ps c ++ crossEdges ts ps := by
      rw [crossEdges, List.map_cons, List.flatten_cons, crossEdges]
    rw [h1, List.length_append,
      ih fun c' hc' => hlen c' (List.mem_cons_of_mem _ hc'),
      travelerEdges, List.length_map, hlen c (List.mem_cons_self c ts),
      List.length_cons]
    ring

/-- C2 counterexample: on the two-agent population `["A", "B"]` every draw
the code can make is forced (one traveler per region even at fraction 0,
partners drawn from singleton index sets), and the synthesized `cross`
layer's first edge `(0, 1)` has BOTH endpoints flagged `crosser` — not
exactly one. -/
theorem claim_c2_counterexample :
    validDraws ["A", "B"] "A" "B" 0 2 [0] [1] (fun _ => [1, 1]) (fun _ => [0, 0]) ∧
    (addCrossLayer ["A", "B"] "A" "B" [0] [1]
        (fun _ => [1, 1]) (fun _ => [0, 0])).crossEdges =
      some [(0, 1), (0, 1), (1, 0), (1, 0)] ∧
    (addCrossLayer ["A", "B"] "A" "B" [0] [1]
        (fun _ => [1, 1]) (fun _ => [0, 0])).crosser 0 = true ∧
    (addCrossLayer ["A", "B"] "A" "B" [0] [1]
        (fun _ => [1, 1]) (fun _ => [0, 0])).crosser 1 = true := by
  refine ⟨?_, by decide, by decide, by decide⟩
  have htrav : nTravelers 0 1 = 1 := by
    simp [nTravelers, pyInt]
  refine ⟨by decide, by decide, ?_, ?_, by decide, by decide, by decide, by decide⟩
  · rw [show (indsOf ["A", "B"] "A").length = 1 from by decide, htrav]
    decide
  · rw [show (indsOf ["A", "B"] "B").length = 1 from by decide, htrav]
    decide

/-- With a zero traveler fraction the sampled count is still 1:
`max(1, int(0 * len)) = 1`. -/
theorem nTravelers_zero (n : Nat) : nTravelers 0 n = 1 := by
  simp [nTravelers, pyInt]

/-- Edges built from travelers of one region toward partners constrained to
the opposite region always join a flagged crosser to the other region. -/
theorem crossEdges_endpoint_regions (countries : List String) (nameA nameB : String)
    (hAB : nameA ≠ nameB) (crosser : Nat → Bool) (ts : List Nat)
    (ps : Nat → List Nat)
    (hts : ∀ c ∈ ts, c ∈ indsOf countries nameA)
    (hcr : ∀ c ∈ ts, crosser c = true)
    (hps : ∀ c ∈ ts, ∀ p ∈ ps c, p ∈ indsOf countries nameB) :
    ∀ e ∈ crossEdges ts ps, crosser e.1 = true ∧
      countries[e.1]? ≠ countries[e.2]? := by
  intro e he
  obtain ⟨c, hc, p, hp, rfl⟩ := mem_crossEdges.mp he
  refine ⟨hcr c hc, ?_⟩
  have h1 : countries[c]? = some nameA := indsOf_country _ _ _ (hts c hc)
  have h2 : countries[p]? = some nameB := indsOf_country _ _ _ (hps c hc p hp)
  simp only [h1, h2]
  intro hcontra
  exact hAB (Option.some_injective _ hcontra)

/-- The working-age subset (with its empty-set fallback) stays inside the
region. -/
theorem workingSubset_subset (ages : Nat → ℚ) (inds : List Nat) :
    ∀ x ∈ workingSubset ages inds, x ∈ inds := by
  intro x hx
  simp only [workingSubset] at hx
  split at hx
  · exact hx
  · exact List.mem_of_mem_filter hx

/-- A layer added by the `len > 0` guard carries exactly the built edge
list. -/
theorem someIfNonempty_some {x l : List (Nat × Nat)}
    (h : someIfNonempty x = some l) : l = x := by
  simp only [someIfNonempty] at h
  split at h
  · exact absurd h (by simp)
  · exact (Option.some_injective _ h).symm

/-- C2 amended: every edge of every synthesized cross layer (`cross` in
single-layer mode; `cross_work`, `cross_community`, `cross_home` in
multilayer mode) has its *first* endpoint flagged `crosser` and its two
endpoints in different regions; but only at least one endpoint — not
exactly one — is guaranteed to be a crosser, since partners are drawn from
the full opposite region (or its working-age subset), which includes that
region's travelers. -/
theorem claim_c2_cross_edge_regions (countries : List String) (nameA nameB : String)
    (frac : ℚ) (k : Nat) (travelersA travelersB : List Nat)
    (partnersA partnersB : Nat → List Nat)
    (hv : validDraws countries nameA nameB frac k travelersA travelersB
      partnersA partnersB)
    (hAB : nameA ≠ nameB) (h2 : ¬numRegions countries < 2)
    (hA : ¬(indsOf countries nameA).length = 0)
    (hB : ¬(indsOf countries nameB).length = 0) :
    (addCrossLayer countries nameA nameB travelersA travelersB
        partnersA partnersB).crossEdges =
      some (crossEdges travelersA partnersA ++ crossEdges travelersB partnersB) ∧
    (∀ e ∈ crossEdges travelersA partnersA ++ crossEdges travelersB partnersB,
      (addCrossLayer countries nameA nameB travelersA travelersB
        partnersA partnersB).crosser e.1 = true ∧
      countries[e.1]? ≠ countries[e.2]?) ∧
    (∀ (ages : Nat → ℚ) (purp : Nat → String)
        (pw1 pw2 pc1 pc2 ph1 ph2 : Nat → List Nat),
      validDrawsMulti countries ages nameA nameB frac k travelersA travelersB
        purp pw1 pw2 pc1 pc2 ph1 ph2 →
      ∀ l : List (Nat × Nat),
        ((addCrossLayerMultilayer countries nameA nameB travelersA travelersB
          purp pw1 pw2 pc1 pc2 ph1 ph2).crossWork = some l ∨
         (addCrossLayerMultilayer countries nameA nameB travelersA travelersB
          purp pw1 pw2 pc1 pc2 ph1 ph2).crossCommunity = some l ∨
         (addCrossLayerMultilayer countries nameA nameB travelersA travelersB
          purp pw1 pw2 pc1 pc2 ph1 ph2).crossHome = some l) →
        ∀ e ∈ l,
          (addCrossLayerMultilayer countries nameA nameB travelersA travelersB
            purp pw1 pw2 pc1 pc2 ph1 ph2).crosser e.1 = true ∧
          countries[e.1]? ≠ countries[e.2]?) := by
  obtain ⟨-, -, -, -, hmemA, hmemB, hpA, hpB⟩ := hv
  have hfalse : ((indsOf countries nameA).length == 0 ||
      (indsOf countries nameB).length == 0) = false := by
    simp [hA, hB]
  have heq : (addCrossLayer countries nameA nameB travelersA travelersB
      partnersA partnersB).crossEdges =
      some (crossEdges travelersA partnersA ++ crossEdges travelersB partnersB) := by
    rw [addCrossLayer, if_neg h2]
    simp [hfalse]
  have hcrosser : (addCrossLayer countries nameA nameB travelersA travelersB
      partnersA partnersB).crosser = fun i =>
        travelersA.contains i || travelersB.contains i := by
    rw [addCrossLayer, if_neg h2]
    simp [hfalse]
  refine ⟨heq, ?_, ?_⟩
  · intro e he
    rcases List.mem_append.mp he with hea | heb
    · refine crossEdges_endpoint_regions countries nameA nameB hAB _ travelersA
        partnersA hmemA ?_ (fun c hc => (hpA c hc).2) e hea
      intro c hc
      rw [hcrosser]
      simp [hc]
    · have hsw := crossEdges_endpoint_regions countries nameB nameA hAB.symm
        ((addCrossLayer countries nameA nameB travelersA travelersB
          partnersA partnersB).crosser) travelersB partnersB hmemB ?_
        (fun c hc => (hpB c hc).2) e heb
      · exact ⟨hsw.1, fun hcon => hsw.2 hcon⟩
      · intro c hc
        rw [hcrosser]
        simp [hc]
  · intro ages purp pw1 pw2 pc1 pc2 ph1 ph2 hvm l hl e hel
    obtain ⟨-, -, -, -, hmA, hmB, -, hw1, hw2, hc1, hc2, hh1, hh2⟩ := hvm
    have hMLc : (addCrossLayerMultilayer countries nameA nameB travelersA
        travelersB purp pw1 pw2 pc1 pc2 ph1 ph2).crosser = fun i =>
          travelersA.contains i || travelersB.contains i := by
      rw [addCrossLayerMultilayer, if_neg h2]
      simp [hfalse]
    have hcrA : ∀ c ∈ travelersA, (addCrossLayerMultilayer countries nameA nameB
        travelersA travelersB purp pw1 pw2 pc1 pc2 ph1 ph2).crosser c = true := by
      intro c hc
      rw [hMLc]
      simp [hc]
    have hcrB : ∀ c ∈ travelersB, (addCrossLayerMultilayer countries nameA nameB
        travelersA travelersB purp pw1 pw2 pc1 pc2 ph1 ph2).crosser c = true := by
      intro c hc
      rw [hMLc]
      simp [hc]
    rcases hl with hwork | hcomm | hhome
    · have hML : (addCrossLayerMultilayer countries nameA nameB travelersA
          travelersB purp pw1 pw2 pc1 pc2 ph1 ph2).crossWork =
          someIfNonempty
            (crossEdges (travelersA.filter fun i => purp i == "work") pw1 ++
             crossEdges (travelersB.filter fun i => purp i == "work") pw2) := by
        rw [addCrossLayerMultilayer, if_neg h2]
        simp [hfalse]
      rw [hML] at hwork
      rw [someIfNonempty_some hwork] at hel
      rcases List.mem_append.mp hel with hea | heb
      · exact crossEdges_endpoint_regions countries nameA nameB hAB _ _ pw1
          (fun c hc => hmA c (List.mem_of_mem_filter hc))
          (fun c hc => hcrA c (List.mem_of_mem_filter hc))
          (fun c hc p hp =>
            workingSubset_subset ages _ p ((hw1 c hc).2 p hp)) e hea
      · have hsw := crossEdges_endpoint_regions countries nameB nameA hAB.symm
          _ _ pw2 (fun c hc => hmB c (List.mem_of_mem_filter hc))
          (fun c hc => hcrB c (List.mem_of_mem_filter hc))
          (fun c hc p hp =>
            workingSubset_subset ages _ p ((hw2 c hc).2 p hp)) e heb
        exact ⟨hsw.1, hsw.2⟩
    · have hML : (addCrossLayerMultilayer countries nameA nameB travelersA
          travelersB purp pw1 pw2 pc1 pc2 ph1 ph2).crossCommunity =
          someIfNonempty
            (crossEdges travelersA pc1 ++ crossEdges travelersB pc2) := by
        rw [addCrossLayerMultilayer, if_neg h2]
        simp [hfalse]
      rw [hML] at hcomm
      rw [someIfNonempty_some hcomm] at hel
      rcases List.mem_append.mp hel with hea | heb
      · exact crossEdges_endpoint_regions countries nameA nameB hAB _ _ pc1
          hmA hcrA (fun c hc => (hc1 c hc).2) e hea
      · exact crossEdges_endpoint_regions countries nameB nameA hAB.symm
          _ _ pc2 hmB hcrB (fun c hc => (hc2 c hc).2) e heb
    · have hML : (addCrossLayerMultilayer countries nameA nameB travelersA
          travelersB purp pw1 pw2 pc1 pc2 ph1 ph2).crossHome =
          someIfNonempty
            (crossEdges (travelersA.filter fun i => purp i == "visit") ph1 ++
             crossEdges (travelersB.filter fun i => purp i == "visit") ph2) := by
        rw [addCrossLayerMultilayer, if_neg h2]
        simp [hfalse]
      rw [hML] at hhome
      rw [someIfNonempty_some hhome] at hel
      rcases List.mem_append.mp hel with hea | heb
      · exact crossEdges_endpoint_regions countries nameA nameB hAB _ _ ph1
          (fun c hc => hmA c (List.mem_of_mem_filter hc))
          (fun c hc => hcrA c (List.mem_of_mem_filter hc))
          (fun c hc p hp => (hh1 c hc).2 p hp) e hea
      · exact crossEdges_endpoint_regions countries nameB nameA hAB.symm
          _ _ ph2 (fun c hc => hmB c (List.mem_of_mem_filter hc))
          (fun c hc => hcrB c (List.mem_of_mem_filter hc))
          (fun c hc p hp => (hh2 c hc).2 p hp) e heb

/-- C2 amended witness: on `["A", "A", "B", "B"]` with travelers 0 and 2,
the single-layer edges `(0, 3)` and `(2, 1)` and the multilayer
`cross_work` edge `(0, 3)` each have a crosser first endpoint and
endpoints in different regions. -/
theorem claim_c2_cross_edge_regions_witness :
    (addCrossLayer ["A", "A", "B", "B"] "A" "B" [0] [2]
        (fun _ => [3]) (fun _ => [1])).crossEdges = some [(0, 3), (2, 1)] ∧
    (addCrossLayer ["A", "A", "B", "B"] "A" "B" [0] [2]
        (fun _ => [3]) (fun _ => [1])).crosser 0 = true ∧
    (["A", "A", "B", "B"] : List String)[0]? ≠
      (["A", "A", "B", "B"] : List String)[3]? ∧
    (addCrossLayerMultilayer ["A", "A", "B", "B"] "A" "B" [0] [2]
        (fun _ => "work") (fun _ => [3]) (fun _ => [1]) (fun _ => [3])
        (fun _ => [1]) (fun _ => []) (fun _ => [])).crosser 0 = true := by
  have htrav : nTravelers 0 2 = 1 := nTravelers_zero 2
  have hv : validDraws ["A", "A", "B", "B"] "A" "B" 0 1 [0] [2]
      (fun _ => [3]) (fun _ => [1]) := by
    refine ⟨by decide, by decide, ?_, ?_, by decide, by decide, by decide, by decide⟩
    · rw [show (indsOf ["A", "A", "B", "B"] "A").length = 2 from by decide, htrav]
      decide
    · rw [show (indsOf ["A", "A", "B", "B"] "B").length = 2 from by decide, htrav]
      decide
  have h := claim_c2_cross_edge_regions ["A", "A", "B", "B"] "A" "B" 0 1 [0] [2]
    (fun _ => [3]) (fun _ => [1]) hv (by decide) (by decide) (by decide) (by decide)
  have he := h.2.1 (0, 3) (by decide)
  have hvm : validDrawsMulti ["A", "A", "B", "B"] (fun _ => 30) "A" "B" 0 1
      [0] [2] (fun _ => "work") (fun _ => [3]) (fun _ => [1]) (fun _ => [3])
      (fun _ => [1]) (fun _ => []) (fun _ => []) := by
    refine ⟨by decide, by decide, ?_, ?_, by decide, by decide,
      fun i _ => Or.inl rfl, ?_, ?_, by decide, by decide, by decide, by decide⟩
    · rw [show (indsOf ["A", "A", "B", "B"] "A").length = 2 from by decide, htrav]
      decide
    · rw [show (indsOf ["A", "A", "B", "B"] "B").length = 2 from by decide, htrav]
      decide
    · intro c hc
      refine ⟨rfl, ?_⟩
      intro p hp
      have hp3 : p = 3 := by simpa using hp
      subst hp3
      have : workingSubset (fun _ => 30) (indsOf ["A", "A", "B", "B"] "B") =
          [2, 3] := by
        simp only [workingSubset]
        norm_num
        decide
      rw [this]
      decide
    · intro c hc
      refine ⟨rfl, ?_⟩
      intro p hp
      have hp1 : p = 1 := by simpa using hp
      subst hp1
      have : workingSubset (fun _ => 30) (indsOf ["A", "A", "B", "B"] "A") =
          [0, 1] := by
        simp only [workingSubset]
        norm_num
        decide
      rw [this]
      decide
  have hml := h.2.2 (fun _ => 30) (fun _ => "work") (fun _ => [3]) (fun _ => [1])
    (fun _ => [3]) (fun _ => [1]) (fun _ => []) (fun _ => []) hvm
    [(0, 3), (2, 1)] (Or.inl (by decide)) (0, 3) (by decide)
  exact ⟨by rw [h.1]; rfl, he.1, he.2, hml.1⟩

/-- C10: on a population with two non-empty regions, each region's traveler
count is `max(1, int(frac_travelers * region_size))`; with
`frac_travelers = 0` that is 1 per region, so at least one agent per region
is flagged `crosser` and, with at least one cross edge per traveler, the
synthesized `cross` layer has `(n_travelers_A + n_travelers_B) ×
n_cross_per_person` edges and is non-empty — the synthesizer is not a
no-op at fraction 0. -/
theorem claim_c10_min_one_traveler (countries : List String) (nameA nameB : String)
    (frac : ℚ) (k : Nat) (travelersA travelersB : List Nat)
    (partnersA partnersB : Nat → List Nat)
    (hv : validDraws countries nameA nameB frac k travelersA travelersB
      partnersA partnersB)
    (h2 : ¬numRegions countries < 2)
    (hA : ¬(indsOf countries nameA).length = 0)
    (hB : ¬(indsOf countries nameB).length = 0)
    (hk : 1 ≤ k) :
    travelersA.length =
      max 1 (pyInt (frac * (indsOf countries nameA).length)).toNat ∧
    travelersB.length =
      max 1 (pyInt (frac * (indsOf countries nameB).length)).toNat ∧
    (frac = 0 → travelersA.length = 1 ∧ travelersB.length = 1) ∧
    (∃ i ∈ indsOf countries nameA,
      (addCrossLayer countries nameA nameB travelersA travelersB
        partnersA partnersB).crosser i = true) ∧
    (∃ i ∈ indsOf countries nameB,
      (addCrossLayer countries nameA nameB travelersA travelersB
        partnersA partnersB).crosser i = true) ∧
    ∃ es, (addCrossLayer countries nameA nameB travelersA travelersB
        partnersA partnersB).crossEdges = some es ∧
      es.length = (travelersA.length + travelersB.length) * k ∧ es ≠ [] := by
  obtain ⟨-, -, hlenA, hlenB, hmemA, hmemB, hpA, hpB⟩ := hv
  have hfalse : ((indsOf countries nameA).length == 0 ||
      (indsOf countries nameB).length == 0) = false := by
    simp [hA, hB]
  have hcrosser : (addCrossLayer countries nameA nameB travelersA travelersB
      partnersA partnersB).crosser = fun i =>
        travelersA.contains i || travelersB.contains i := by
    rw [addCrossLayer, if_neg h2]
    simp [hfalse]
  have heq : (addCrossLayer countries nameA nameB travelersA travelersB
      partnersA partnersB).crossEdges =
      some (crossEdges travelersA partnersA ++ crossEdges travelersB partnersB) := by
    rw [addCrossLayer, if_neg h2]
    simp [hfalse]
  have h1A : 1 ≤ travelersA.length := by
    rw [hlenA, nTravelers]
    exact Nat.le_max_left 1 _
  have h1B : 1 ≤ travelersB.length := by
    rw [hlenB, nTravelers]
    exact Nat.le_max_left 1 _
  have hneA : travelersA ≠ [] := by
    intro hcon
    rw [hcon] at h1A
    exact absurd h1A (by decide)
  have hneB : travelersB ≠ [] := by
    intro hcon
    rw [hcon] at h1B
    exact absurd h1B (by decide)
  refine ⟨by rw [hlenA]; rfl, by rw [hlenB]; rfl, ?_, ?_, ?_, ?_⟩
  · rintro rfl
    rw [hlenA, hlenB, nTravelers_zero, nTravelers_zero]
    exact ⟨rfl, rfl⟩
  · refine ⟨travelersA.head hneA, hmemA _ (List.head_mem hneA), ?_⟩
    rw [hcrosser]
    simp [List.head_mem hneA]
  · refine ⟨travelersB.head hneB, hmemB _ (List.head_mem hneB), ?_⟩
    rw [hcrosser]
    simp [List.head_mem hneB]
  · refine ⟨_, heq, ?_, ?_⟩
    · rw [List.length_append, crossEdges_length fun c hc => (hpA c hc).1,
        crossEdges_length fun c hc => (hpB c hc).1]
      ring
    · intro hcon
      have := congrArg List.length hcon
      rw [List.length_append, crossEdges_length fun c hc => (hpA c hc).1,
        crossEdges_length fun c hc => (hpB c hc).1, List.length_nil] at this
      have hpos : 1 ≤ (travelersA.length * k + travelersB.length * k) :=
        Nat.le_trans (Nat.mul_le_mul h1A hk) (Nat.le_add_right _ _)
      omega

/-- C10 witness: on `["A", "B"]` with `frac_travelers = 0` and 2 edges per
traveler, one traveler per region is still selected and the `cross` layer
has 4 edges. -/
theorem claim_c10_min_one_traveler_witness :
    (∃ i ∈ indsOf ["A", "B"] "A",
      (addCrossLayer ["A", "B"] "A" "B" [0] [1]
        (fun _ => [1, 1]) (fun _ => [0, 0])).crosser i = true) ∧
    ∃ es, (addCrossLayer ["A", "B"] "A" "B" [0] [1]
        (fun _ => [1, 1]) (fun _ => [0, 0])).crossEdges = some es ∧
      es.length = 4 ∧ es ≠ [] := by
  have htrav : nTravelers 0 1 = 1 := nTravelers_zero 1
  have hv : validDraws ["A", "B"] "A" "B" 0 2 [0] [1]
      (fun _ => [1, 1]) (fun _ => [0, 0]) := by
    refine ⟨by decide, by decide, ?_, ?_, by decide, by decide, by decide, by decide⟩
    · rw [show (indsOf ["A", "B"] "A").length = 1 from by decide, htrav]
      decide
    · rw [show (indsOf ["A", "B"] "B").length = 1 from by decide, htrav]
      decide
  have h := claim_c10_min_one_traveler ["A", "B"] "A" "B" 0 2 [0] [1]
    (fun _ => [1, 1]) (fun _ => [0, 0]) hv (by decide) (by decide) (by decide)
    (by decide)
  refine ⟨h.2.2.2.1, ?_⟩
  obtain ⟨es, he1, he2, he3⟩ := h.2.2.2.2.2
  exact ⟨es, he1, by rw [he2]; decide, he3⟩

/-! ## Lemmas about edge-index selection and removal -/

theorem indicesWhereFrom_length (p : Edge → Bool) :
    ∀ (l : List Edge) (k : Nat),
      (indicesWhereFrom p l k).length = (l.filter p).length := by
  intro l
  induction l with
  | nil => intro k; rfl
  | cons e es ih =>
    intro k
    by_cases hp : p e = true
    · rw [indicesWhereFrom, if_pos hp, List.filter_cons_of_pos hp,
        List.length_cons, List.length_cons, ih]
    · rw [indicesWhereFrom, if_neg hp,
        List.filter_cons_of_neg (by simpa using hp), ih]

theorem indicesWhereFrom_bounds (p : Edge → Bool) :
    ∀ (l : List Edge) (k i : Nat), i ∈ indicesWhereFrom p l k →
      k ≤ i ∧ i < k + l.length := by
  intro l
  induction l with
  | nil => intro k i hi; exact absurd hi (List.not_mem_nil i)
  | cons e es ih =>
    intro k i hi
    by_cases hp : p e = true
    · rw [indicesWhereFrom, if_pos hp] at hi
      rcases List.mem_cons.mp hi with rfl | hi'
      · exact ⟨Nat.le_refl i, by simp [Nat.lt_succ_of_le, Nat.le_add_right]⟩
      · have := ih (k + 1) i hi'
        constructor <;> [omega; (rw [List.length_cons]; omega)]
    · rw [indicesWhereFrom, if_neg hp] at hi
      have := ih (k + 1) i hi
      constructor <;> [omega; (rw [List.length_cons]; omega)]

theorem indicesWhereFrom_get (p : Edge → Bool) :
    ∀ (l : List Edge) (k i : Nat), i ∈ indicesWhereFrom p l k →
      ∃ e, l[i - k]? = some e ∧ p e = true := by
  intro l
  induction l with
  | nil => intro k i hi; exact absurd hi (List.not_mem_nil i)
  | cons e es ih =>
    intro k i hi
    by_cases hp : p e = true
    · rw [indicesWhereFrom, if_pos hp] at hi
      rcases List.mem_cons.mp hi with rfl | hi'
      · exact ⟨e, by rw [Nat.sub_self]; simp, hp⟩
      · obtain ⟨x, hx, hpx⟩ := ih (k + 1) i hi'
        have hk := (indicesWhereFrom_bounds p es (k + 1) i hi').1
        refine ⟨x, ?_, hpx⟩
        have hik : i - k = (i - (k + 1)) + 1 := by omega
        rw [hik, List.getElem?_cons_succ]
        exact hx
    · rw [indicesWhereFrom, if_neg hp] at hi
      obtain ⟨x, hx, hpx⟩ := ih (k + 1) i hi
      have hk := (indicesWhereFrom_bounds p es (k + 1) i hi).1
      refine ⟨x, ?_, hpx⟩
      have hik : i - k = (i - (k + 1)) + 1 := by omega
      rw [hik, List.getElem?_cons_succ]
      exact hx

theorem indicesWhereFrom_nodup (p : Edge → Bool) :
    ∀ (l : List Edge) (k : Nat), (indicesWhereFrom p l k).Nodup := by
  intro l
  induction l with
  | nil => intro k; exact List.nodup_nil
  | cons e es ih =>
    intro k
    by_cases hp : p e = true
    · rw [indicesWhereFrom, if_pos hp]
      refine List.nodup_cons.mpr ⟨?_, ih (k + 1)⟩
      intro hmem
      have := (indicesWhereFrom_bounds p es (k + 1) k hmem).1
      omega
    · rw [indicesWhereFrom, if_neg hp]
      exact ih (k + 1)

theorem removeAtFrom_length (inds : List Nat) :
    ∀ (l : List Edge) (k : Nat),
      (removeAtFrom inds l k).length +
        (List.range' k l.length).countP (fun i => inds.contains i) = l.length := by
  intro l
  induction l with
  | nil => intro k; rfl
  | cons e es ih =>
    intro k
    rw [List.length_cons, List.range'_succ, List.countP_cons]
    by_cases hc : inds.contains k = true
    · rw [removeAtFrom, if_pos hc, if_pos hc]
      have := ih (k + 1)
      omega
    · rw [removeAtFrom, if_neg hc, if_neg hc, List.length_cons]
      have := ih (k + 1)
      omega

theorem countP_contains_range (inds : List Nat) (n : Nat) (hnd : inds.Nodup)
    (hlt : ∀ i ∈ inds, i < n) :
    (List.range' 0 n).countP (fun i => inds.contains i) = inds.length := by
  rw [List.countP_eq_length_filter]
  have hperm : List.Perm ((List.range' 0 n).filter fun i => inds.contains i) inds := by
    rw [List.perm_ext_iff_of_nodup (List.Nodup.filter _ (List.nodup_range' 0 n)) hnd]
    intro a
    rw [List.mem_filter, List.mem_range'_1]
    constructor
    · rintro ⟨-, hc⟩
      exact List.elem_iff.mp hc
    · intro ha
      exact ⟨⟨Nat.zero_le a, by simpa using hlt a ha⟩, List.elem_iff.mpr ha⟩
  exact hperm.length_eq

theorem removeAt_length (inds : List Nat) (l : List Edge) (hnd : inds.Nodup)
    (hlt : ∀ i ∈ inds, i < l.length) :
    (removeAtFrom inds l 0).length = l.length - inds.length := by
  have h := removeAtFrom_length inds l 0
  rw [countP_contains_range inds l.length hnd hlt] at h
  omega

theorem filterMap_length_isSome {inds : List Nat} {f : Nat → Option Edge}
    (h : ∀ i ∈ inds, (f i).isSome = true) :
    (inds.filterMap f).length = inds.length := by
  induction inds with
  | nil => rfl
  | cons a l ih =>
    obtain ⟨e, he⟩ := Option.isSome_iff_exists.mp (h a (List.mem_cons_self a l))
    rw [List.filterMap_cons, he, List.length_cons, List.length_cons,
      ih fun i hi => h i (List.mem_cons_of_mem _ hi)]

/-- Python truncation of a nonneg value is the floor; `int(n*(1-f)) ≤ n`
for `0 ≤ f ≤ 1`. -/
theorem nRemove_le (n : Nat) (f : ℚ) (hf0 : 0 ≤ f) (hf1 : f ≤ 1) :
    nRemove n f ≤ (n : ℤ) := by
  rw [nRemove, pyInt]
  have h0 : (0 : ℚ) ≤ (n : ℚ) * (1 - f) :=
    mul_nonneg (Nat.cast_nonneg n) (by linarith)
  rw [if_pos h0]
  calc ⌊(n : ℚ) * (1 - f)⌋ ≤ ⌊(n : ℚ)⌋ :=
        Int.floor_le_floor (by nlinarith [Nat.cast_nonneg (α := ℚ) n])
    _ = (n : ℤ) := Int.floor_natCast n

/-- `fraction = 1` gives `int(n * 0) = 0`: nothing is removed. -/
theorem nRemove_one (n : Nat) : nRemove n 1 = 0 := by
  simp [nRemove, pyInt]

/-- `fraction = 0` gives `int(n * 1) = n`: all in-region edges removed. -/
theorem nRemove_zero (n : Nat) : nRemove n 0 = n := by
  simp [nRemove, pyInt]

/-- C7: at `start_day`, with `n` edges touching the region, exactly
`int(n * (1 - fraction))` of the shuffled in-region edge indices are popped
— the popped rows are all in-region edges, they are stored, and the layer
shrinks by exactly that amount; `fraction = 1` removes nothing (the
intervention stays unapplied) and `fraction = 0` targets all `n` edges;
and at a configured `end_day` the identical stored edge set is appended
back into the layer. -/
theorem claim_c7_partial_removal (startDay : Nat) (endDay : Option Nat)
    (fraction : ℚ) (position : Nat → String) (name : String) (st : RemovalState)
    (shuffled : List Nat)
    (hshuf : List.Perm shuffled (indicesWhere (edgeInRegion position name) st.layer))
    (hfr0 : 0 ≤ fraction) (hfr1 : fraction ≤ 1) (happl : st.applied = false) :
    (¬(indicesWhere (edgeInRegion position name) st.layer).length = 0 →
      0 < nRemove (indicesWhere (edgeInRegion position name) st.layer).length
        fraction →
      (applyRemoval startDay endDay fraction position name startDay shuffled
        st).applied = true ∧
      (applyRemoval startDay endDay fraction position name startDay shuffled
        st).stored = some ((shuffled.take (nRemove (indicesWhere
          (edgeInRegion position name) st.layer).length fraction).toNat).filterMap
            fun i => st.layer[i]?) ∧
      ((shuffled.take (nRemove (indicesWhere (edgeInRegion position name)
          st.layer).length fraction).toNat).filterMap
            fun i => st.layer[i]?).length =
        (nRemove (indicesWhere (edgeInRegion position name) st.layer).length
          fraction).toNat ∧
      (∀ e ∈ (shuffled.take (nRemove (indicesWhere (edgeInRegion position name)
          st.layer).length fraction).toNat).filterMap fun i => st.layer[i]?,
        edgeInRegion position name e = true) ∧
      (applyRemoval startDay endDay fraction position name startDay shuffled
        st).layer.length =
        st.layer.length - (nRemove (indicesWhere (edgeInRegion position name)
          st.layer).length fraction).toNat) ∧
    (fraction = 1 →
      applyRemoval startDay endDay fraction position name startDay shuffled st =
        st) ∧
    nRemove (indicesWhere (edgeInRegion position name) st.layer).length 0 =
      (indicesWhere (edgeInRegion position name) st.layer).length ∧
    (∀ (st' : RemovalState) (t' : Nat) (sh' : List Nat) (ps : List Edge),
      st'.applied = true → st'.stored = some ps → endDay = some t' →
      applyRemoval startDay endDay fraction position name t' sh' st' =
        { layer := st'.layer ++ ps, stored := some ps, applied := false }) := by
  refine ⟨?_, ?_, nRemove_zero _, ?_⟩
  · intro hn hr
    have hnle := not_le.mpr hr
    have hres : applyRemoval startDay endDay fraction position name startDay
        shuffled st =
        { layer := removeAtFrom (shuffled.take (nRemove (indicesWhere
            (edgeInRegion position name) st.layer).length fraction).toNat)
            st.layer 0
          stored := some ((shuffled.take (nRemove (indicesWhere
            (edgeInRegion position name) st.layer).length fraction).toNat).filterMap
              fun i => st.layer[i]?)
          applied := true } := by
      rw [applyRemoval]
      simp [happl, hn, hnle, popInds]
    have hnodupSh : shuffled.Nodup :=
      hshuf.nodup_iff.mpr (indicesWhereFrom_nodup _ st.layer 0)
    have hlenSh : shuffled.length =
        (indicesWhere (edgeInRegion position name) st.layer).length :=
      hshuf.length_eq
    have hsub := List.take_sublist (nRemove (indicesWhere
      (edgeInRegion position name) st.layer).length fraction).toNat shuffled
    have hmemR : ∀ i ∈ shuffled.take (nRemove (indicesWhere
        (edgeInRegion position name) st.layer).length fraction).toNat,
        i ∈ indicesWhere (edgeInRegion position name) st.layer :=
      fun i hi => hshuf.mem_iff.mp (hsub.subset hi)
    have hlenR : (shuffled.take (nRemove (indicesWhere
        (edgeInRegion position name) st.layer).length fraction).toNat).length =
        (nRemove (indicesWhere (edgeInRegion position name) st.layer).length
          fraction).toNat := by
      rw [List.length_take, hlenSh]
      have h2 := nRemove_le (indicesWhere (edgeInRegion position name)
        st.layer).length fraction hfr0 hfr1
      omega
    have hgetR : ∀ i ∈ shuffled.take (nRemove (indicesWhere
        (edgeInRegion position name) st.layer).length fraction).toNat,
        ∃ e, st.layer[i]? = some e ∧ edgeInRegion position name e = true := by
      intro i hi
      have := indicesWhereFrom_get _ st.layer 0 i (hmemR i hi)
      simpa using this
    have hlenP : ((shuffled.take (nRemove (indicesWhere
        (edgeInRegion position name) st.layer).length fraction).toNat).filterMap
          fun i => st.layer[i]?).length =
        (nRemove (indicesWhere (edgeInRegion position name) st.layer).length
          fraction).toNat := by
      rw [filterMap_length_isSome, hlenR]
      intro i hi
      obtain ⟨e, he, -⟩ := hgetR i hi
      rw [he]
      rfl
    refine ⟨by rw [hres], by rw [hres], hlenP, ?_, ?_⟩
    · intro e he
      obtain ⟨i, hi, hie⟩ := List.mem_filterMap.mp he
      obtain ⟨x, hx, hpx⟩ := hgetR i hi
      rw [hx] at hie
      have hxe : x = e := Option.some_injective _ hie
      rw [hxe] at hpx
      exact hpx
    · rw [hres]
      have hbnd : ∀ i ∈ shuffled.take (nRemove (indicesWhere
          (edgeInRegion position name) st.layer).length fraction).toNat,
          i < st.layer.length := by
        intro i hi
        have := (indicesWhereFrom_bounds _ st.layer 0 i (hmemR i hi)).2
        omega
      rw [removeAt_length _ _ (hsub.nodup hnodupSh) hbnd, hlenR]
  · rintro rfl
    rw [applyRemoval]
    simp [happl, nRemove_one]
  · intro st' t' sh' ps ha hs he
    rw [applyRemoval]
    simp [ha, hs, he]

/-- C7 witness: four edges of which three touch region A; `fraction = 0`
pops all three shuffled in-region edges, stores them, and the later
end-day call appends the identical stored rows back. -/
theorem claim_c7_partial_removal_witness :
    (applyRemoval 2 (some 9) 0 (fun i => if i ≤ 3 then "A" else "B") "A" 2
      [2, 0, 1] ⟨[⟨0, 1, 1⟩, ⟨2, 3, 1⟩, ⟨0, 2, 1⟩, ⟨4, 5, 1⟩], none, false⟩).stored =
      some [⟨0, 2, 1⟩, ⟨0, 1, 1⟩, ⟨2, 3, 1⟩] ∧
    (applyRemoval 2 (some 9) 0 (fun i => if i ≤ 3 then "A" else "B") "A" 2
      [2, 0, 1] ⟨[⟨0, 1, 1⟩, ⟨2, 3, 1⟩, ⟨0, 2, 1⟩, ⟨4, 5, 1⟩],
        none, false⟩).layer.length = 1 ∧
    applyRemoval 2 (some 9) 0 (fun i => if i ≤ 3 then "A" else "B") "A" 9
      [] ⟨[⟨4, 5, 1⟩], some [⟨0, 2, 1⟩, ⟨0, 1, 1⟩, ⟨2, 3, 1⟩], true⟩ =
      ⟨[⟨4, 5, 1⟩, ⟨0, 2, 1⟩, ⟨0, 1, 1⟩, ⟨2, 3, 1⟩],
        some [⟨0, 2, 1⟩, ⟨0, 1, 1⟩, ⟨2, 3, 1⟩], false⟩ := by
  have h := claim_c7_partial_removal 2 (some 9) 0
    (fun i => if i ≤ 3 then "A" else "B") "A"
    ⟨[⟨0, 1, 1⟩, ⟨2, 3, 1⟩, ⟨0, 2, 1⟩, ⟨4, 5, 1⟩], none, false⟩ [2, 0, 1]
    (by decide) (le_refl 0) (by norm_num) rfl
  have hmain := h.1 (by decide)
    (by
      rw [show (indicesWhere (edgeInRegion (fun i => if i ≤ 3 then "A" else "B")
        "A") [⟨0, 1, 1⟩, ⟨2, 3, 1⟩, ⟨0, 2, 1⟩, ⟨4, 5, 1⟩]).length = 3
        from by decide, nRemove_zero]
      decide)
  refine ⟨?_, ?_, ?_⟩
  · rw [hmain.2.1]
    norm_num [nRemove_zero]
    decide
  · rw [hmain.2.2.2.2]
    norm_num [nRemove_zero]
    decide
  · exact h.2.2.2 ⟨[⟨4, 5, 1⟩], some [⟨0, 2, 1⟩, ⟨0, 1, 1⟩, ⟨2, 3, 1⟩], true⟩
      9 [] [⟨0, 2, 1⟩, ⟨0, 1, 1⟩, ⟨2, 3, 1⟩] rfl rfl rfl

/-- C4 counterexample: requesting the cross layer on the one-region
population `["A", "A"]` raises nothing — the synthesizer returns normally
with no cross layer and the all-`False` crosser array — and an
unrecognized topology kind in a non-first layer config also raises
nothing: the bogus second layer silently receives the first layer's
contacts. -/
theorem claim_c4_counterexample :
    (addCrossLayer ["A", "A"] "A" "B" [] [] (fun _ => []) (fun _ => [])).crossEdges
      = none ∧
    (addCrossLayer ["A", "A"] "A" "B" [] [] (fun _ => []) (fun _ => [])).crosser 0
      = false ∧
    createCustomPopulation (fun n _ => if n == "l1" then [(0, 1)] else [(2, 3)])
        [("l1", "random"), ("l2", "bogus")] =
      .ok [("l1", [(0, 1)]), ("l2", [(0, 1)])] := by
  refine ⟨by decide, by decide, by rfl⟩

/-- C4 amended: an unrecognized topology kind in the *first* layer config
fails setup with an uncaught Python `UnboundLocalError` (reading the
never-assigned `layer_contacts` local) — a fatal error, though not a
dedicated ConfigurationError; an unrecognized kind after a successfully
built layer does not fail at all but silently reuses the previous layer's
contacts; and a cross layer requested with fewer than two populated
regions is a silent no-op returning the population with no cross layer and
no crosser flagged. -/
theorem claim_c4_setup_failures :
    (∀ (gen : String → String → List (Nat × Nat)) (lname ntype : String)
        (rest : List (String × String)), ntype ∉ knownNetworkTypes →
      createCustomPopulation gen ((lname, ntype) :: rest) =
        .error .unboundLocalLayerContacts) ∧
    (∀ (gen : String → String → List (Nat × Nat)) (n1 t1 n2 t2 : String),
        t1 ∈ knownNetworkTypes → t2 ∉ knownNetworkTypes →
      createCustomPopulation gen [(n1, t1), (n2, t2)] =
        .ok [(n1, gen n1 t1), (n2, gen n1 t1)]) ∧
    (∀ (countries : List String) (nameA nameB : String)
        (travelersA travelersB : List Nat) (partnersA partnersB : Nat → List Nat),
        numRegions countries < 2 →
      (addCrossLayer countries nameA nameB travelersA travelersB
        partnersA partnersB).crossEdges = none ∧
      ∀ i, (addCrossLayer countries nameA nameB travelersA travelersB
        partnersA partnersB).crosser i = false) := by
  refine ⟨?_, ?_, ?_⟩
  · intro gen lname ntype rest hnt
    have hc : knownNetworkTypes.contains ntype = false := by
      rw [Bool.eq_false_iff]
      intro hcon
      exact hnt (List.elem_iff.mp hcon)
    rw [createCustomPopulation, buildLayersLoop, hc]
    rfl
  · intro gen n1 t1 n2 t2 ht1 ht2
    have hc1 : knownNetworkTypes.contains t1 = true := List.elem_iff.mpr ht1
    have hc2 : knownNetworkTypes.contains t2 = false := by
      rw [Bool.eq_false_iff]
      intro hcon
      exact ht2 (List.elem_iff.mp hcon)
    rw [createCustomPopulation, buildLayersLoop, hc1]
    simp only [if_true]
    rw [buildLayersLoop, hc2]
    simp only [Bool.false_eq_true, if_false]
    rw [buildLayersLoop]
    rfl
  · intro countries nameA nameB travelersA travelersB partnersA partnersB h2
    rw [addCrossLayer, if_pos h2]
    exact ⟨rfl, fun i => rfl⟩

/-- C4 amended witness: `"bogus"` first fails with the unbound-local
error; a bogus kind after a valid `"random"` layer succeeds with reused
contacts; `["A", "A"]` gives the silent cross-layer no-op. -/
theorem claim_c4_setup_failures_witness :
    createCustomPopulation (fun _ _ => [(0, 1)]) [("l1", "bogus")] =
      .error .unboundLocalLayerContacts ∧
    createCustomPopulation (fun n _ => if n == "l1" then [(0, 1)] else [(2, 3)])
        [("l1", "random"), ("l2", "bogus")] =
      .ok [("l1", [(0, 1)]), ("l2", [(0, 1)])] ∧
    (addCrossLayer ["A", "A"] "A" "B" [] [] (fun _ => []) (fun _ => [])).crossEdges
      = none := by
  refine ⟨?_, ?_, ?_⟩
  · exact claim_c4_setup_failures.1 (fun _ _ => [(0, 1)]) "l1" "bogus" []
      (by decide)
  · exact claim_c4_setup_failures.2.1
      (fun n _ => if n == "l1" then [(0, 1)] else [(2, 3)]) "l1" "random" "l2"
      "bogus" (by decide) (by decide)
  · exact (claim_c4_setup_failures.2.2 ["A", "A"] "A" "B" [] []
      (fun _ => []) (fun _ => []) (by decide)).1

end CovaCross
